import Mathlib

/-!
Shallow embedding of the Othello engine in src/game.py.

Cells of the grid hold the string EMPTY = "-", a player name ("b" or "w"),
or the helper marker "?".  Coordinates are pairs of integers; Python's
"move_on_board" rejects negative components explicitly and converts an
IndexError on too-large components into None, which we model with Option.
The while-loop in walks_to_player is modelled with explicit fuel; an outer
Option layer distinguishes fuel exhaustion (never reached for the unit
directions the game uses, as proved below) from the loop's own None result.
Python exceptions (KeyError from moves[move] and from set.remove) are
modelled with Except, the error carrying the partially mutated state at the
point the exception is raised.
-/

def EMPTY : String := "-"

abbrev Coord := Int × Int

abbrev Chain := List Coord

abbrev Moves := List (Coord × Chain)

structure Player where
  name : String
  pieces : List Coord
  skip : Bool
deriving DecidableEq, Repr

def Player.add (pl : Player) (piece : Coord) : Player :=
  if piece ∈ pl.pieces then pl else { pl with pieces := pl.pieces ++ [piece] }

def Player.remove (pl : Player) (piece : Coord) : Option Player :=
  if piece ∈ pl.pieces then some { pl with pieces := pl.pieces.erase piece }
  else none

structure Grid where
  shape : Nat × Nat
  grid : List (List String)
deriving DecidableEq, Repr

def move_on_board (g : Grid) (move : Coord) : Option String :=
  if move.1 < 0 ∨ move.2 < 0 then none
  else match g.grid[move.1.toNat]? with
       | none => none
       | some row => row[move.2.toNat]?

def empty (g : Grid) (move : Coord) : Bool :=
  move_on_board g move = some EMPTY

def Grid.add (g : Grid) (name : String) (piece : Coord) : Grid :=
  if piece.1 < 0 ∨ piece.2 < 0 then g
  else match g.grid[piece.1.toNat]? with
       | none => g
       | some row => { g with grid := g.grid.set piece.1.toNat (row.set piece.2.toNat name) }

def Grid.remove (g : Grid) (piece : Coord) : Grid :=
  Grid.add g EMPTY piece

def Grid.init (players : List Player) (shape : Nat × Nat) : Grid :=
  let base : Grid := { shape := shape, grid := List.replicate shape.2 (List.replicate shape.1 EMPTY) }
  players.foldl (fun g pl => pl.pieces.foldl (fun g p => Grid.add g pl.name p) g) base

def Grid.fuel (g : Grid) : Nat :=
  g.grid.length + (g.grid.map List.length).foldr max 0 + 2

def walksF (pl : Player) (g : Grid) : Nat → Coord → Coord → Option (Option Chain)
  | 0, _, _ => none
  | n+1, move, delta =>
    let m : Coord := (move.1 + delta.1, move.2 + delta.2)
    match move_on_board g m with
    | none => some none
    | some spot =>
      if spot = EMPTY then some none
      else if spot ≠ pl.name then (walksF pl g n m delta).map (Option.map (m :: ·))
      else some (some [])

def walks_to_player (pl : Player) (g : Grid) (move delta : Coord) : Option Chain :=
  match walksF pl g (Grid.fuel g) move delta with
  | some r => r
  | none => none

def playable (g : Grid) (pl : Player) (move piece : Coord) : Option Chain :=
  if move = piece then none
  else match move_on_board g move with
       | none => none
       | some _ =>
         if ¬ empty g move then none
         else
           let delta : Coord := (piece.1 - move.1, piece.2 - move.2)
           match walks_to_player pl g move delta with
           | some chain => if chain = [] then none else some chain
           | none => none

def walk (pl : Player) (piece : Coord) (g : Grid) : Moves :=
  [piece.1 - 1, piece.1, piece.1 + 1].flatMap fun i =>
    [piece.2 - 1, piece.2, piece.2 + 1].filterMap fun j =>
      match playable g pl (i, j) piece with
      | some chain => some ((i, j), chain)
      | none => none

def possible_moves (pl opp : Player) (g : Grid) : Moves :=
  opp.pieces.flatMap fun piece => walk pl piece g

def lookupA : Moves → Coord → Option Chain
  | [], _ => none
  | e :: rest, k => if e.1 = k then some e.2 else lookupA rest k

def insertEntry (acc : Moves) (e : Coord × Chain) : Moves :=
  if (lookupA acc e.1).isSome then
    acc.map fun kv => if kv.1 = e.1 then (kv.1, kv.2 ++ e.2) else kv
  else acc ++ [e]

structure Game where
  player : Player
  opponent : Player
  grid : Grid
  cache : Option Moves
deriving DecidableEq, Repr

def Game.possible_moves_uncached (g : Game) : Moves :=
  (possible_moves g.player g.opponent g.grid).foldl insertEntry []

def Game.possible_moves (g : Game) : Moves × Game :=
  match g.cache with
  | some m => (m, g)
  | none =>
    let m := g.possible_moves_uncached
    (m, { g with cache := some m })

def Game.continues (g : Game) : Bool :=
  ¬ (g.player.skip ∧ g.opponent.skip)

def Game.current_player (g : Game) : String :=
  g.player.name

def Game.next_player (g : Game) (skip : Bool) : Game :=
  { g with player := g.opponent, opponent := { g.player with skip := skip } }

def Game.add (g : Game) (move : Coord) : Game :=
  { g with player := g.player.add move, grid := g.grid.add g.player.name move }

def Game.capture : Game → Chain → Except Game Game
  | g, [] => Except.ok g
  | g, point :: rest =>
    let g1 := g.add point
    match g1.opponent.remove point with
    | none => Except.error g1
    | some opp => Game.capture { g1 with opponent := opp } rest

def Game.cache_clear (g : Game) : Game :=
  { g with cache := none }

def Game.play (g : Game) (move : Coord) : Except Game Game :=
  let mg := g.possible_moves
  let g1 := mg.2.add move
  match lookupA mg.1 move with
  | none => Except.error g1
  | some chain =>
    match g1.capture chain with
    | Except.error e => Except.error e
    | Except.ok g2 => Except.ok (g2.cache_clear.next_player false)

def Game.init : Game :=
  let player : Player := { name := "b", pieces := [(3,4), (4,3)], skip := false }
  let opponent : Player := { name := "w", pieces := [(3,3), (4,4)], skip := false }
  { player := player, opponent := opponent
    grid := Grid.init [player, opponent] (8, 8)
    cache := none }

def helper_enter (g : Game) (moves : Moves) : Game :=
  { g with grid := moves.foldl (fun gr kv => gr.add "?" kv.1) g.grid }

def helper_exit (g : Game) (moves : Moves) : Game :=
  { g with grid := moves.foldl (fun gr kv => gr.remove kv.1) g.grid }

def main_step (choose : Moves → Coord) (g : Game) : Except Game Game :=
  let mg := g.possible_moves
  if mg.1 = [] then Except.ok (mg.2.next_player true)
  else
    let g1 := helper_exit (helper_enter mg.2 mg.1) mg.1
    let move := choose mg.1
    if (lookupA mg.1 move).isSome then g1.play move
    else Except.ok g1

def runGame (choose : Moves → Coord) : Nat → Game → Except Game Game
  | 0, g => Except.ok g
  | n+1, g =>
    if g.continues then
      match main_step choose g with
      | Except.error e => Except.error e
      | Except.ok g1 => runGame choose n g1
    else Except.ok g

/-- Variant of playable written from the claimed scan direction: it steps from the
target by move minus piece (the direction from the opponent piece to the target
square) instead of the direction piece minus move that the source computes. -/
def playable_specDir (g : Grid) (pl : Player) (move piece : Coord) : Option Chain :=
  if move = piece then none
  else match move_on_board g move with
       | none => none
       | some _ =>
         if ¬ empty g move then none
         else
           let delta : Coord := (move.1 - piece.1, move.2 - piece.2)
           match walks_to_player pl g move delta with
           | some chain => if chain = [] then none else some chain
           | none => none

def Grid.rectB (g : Grid) : Bool :=
  (g.grid.length == g.shape.2) && g.grid.all fun row => row.length == g.shape.1

def Grid.emptyCount (g : Grid) : Nat :=
  (g.grid.map fun row => row.countP fun c => decide (c = EMPTY)).sum

def Grid.occupiedCount (g : Grid) : Nat :=
  (g.grid.map fun row => row.countP fun c => decide (c ≠ EMPTY)).sum

def Game.consistentB (g : Game) : Bool :=
  decide (g.player.name ≠ g.opponent.name) &&
  decide (g.player.name ≠ EMPTY) &&
  decide (g.opponent.name ≠ EMPTY) &&
  decide g.player.pieces.Nodup &&
  decide g.opponent.pieces.Nodup &&
  g.grid.rectB &&
  (g.player.pieces.all fun c => decide (move_on_board g.grid c = some g.player.name)) &&
  (g.opponent.pieces.all fun c => decide (move_on_board g.grid c = some g.opponent.name)) &&
  ((List.range g.grid.grid.length).all fun x =>
    (List.range ((g.grid.grid.getD x []).length)).all fun y =>
      decide ((g.grid.grid.getD x []).getD y EMPTY = EMPTY ∨
        ((g.grid.grid.getD x []).getD y EMPTY = g.player.name ∧
          ((x : Int), (y : Int)) ∈ g.player.pieces) ∨
        ((g.grid.grid.getD x []).getD y EMPTY = g.opponent.name ∧
          ((x : Int), (y : Int)) ∈ g.opponent.pieces)))

/-- Propositional form of consistentB: the two player names are distinct
non-EMPTY strings, the piece lists are duplicate-free (Python sets), the grid
is rectangular, each player's piece set matches exactly the grid cells holding
that player's name, and every cell holds EMPTY or one of the two names. -/
def ConsistentP (g : Game) : Prop :=
  g.player.name ≠ g.opponent.name ∧ g.player.name ≠ EMPTY ∧ g.opponent.name ≠ EMPTY ∧
  g.player.pieces.Nodup ∧ g.opponent.pieces.Nodup ∧
  g.grid.rectB = true ∧
  (∀ c ∈ g.player.pieces, move_on_board g.grid c = some g.player.name) ∧
  (∀ c ∈ g.opponent.pieces, move_on_board g.grid c = some g.opponent.name) ∧
  (∀ (c : Coord) (v : String), move_on_board g.grid c = some v →
    v = EMPTY ∨ (v = g.player.name ∧ c ∈ g.player.pieces) ∨
      (v = g.opponent.name ∧ c ∈ g.opponent.pieces))

def Game.cacheFresh (g : Game) : Bool :=
  match g.cache with
  | none => true
  | some m => decide (m = g.possible_moves_uncached)

def Game.cacheOK (g : Game) : Bool :=
  match g.cache with
  | none => true
  | some m => m.isEmpty || decide (m = g.possible_moves_uncached)

def Game.flagWeight (g : Game) : Nat :=
  if g.player.skip then (if g.opponent.skip then 0 else 1)
  else (if g.opponent.skip then 0 else 2)

def Game.measureG (g : Game) : Nat :=
  3 * g.grid.emptyCount + g.flagWeight

def resultState : Except Game Game → Game
  | Except.ok g => g
  | Except.error g => g

def headKey : Moves → Coord
  | [] => (0, 0)
  | e :: _ => e.1

def ValidChoose (choose : Moves → Coord) : Prop :=
  ∀ m : Moves, m ≠ [] → (lookupA m (choose m)).isSome = true

/-- A two-piece position used to exhibit the stale legal-move cache: the mover
(w, at (0,1)) has no legal move, while the other player (b, at (0,0)) would
have the legal move (0,2) capturing (0,1) once the turn passes to them. -/
def bugPlayerB : Player := { name := "b", pieces := [(0, 0)], skip := false }

def bugPlayerW : Player := { name := "w", pieces := [(0, 1)], skip := false }

def bugGame : Game :=
  { player := bugPlayerW, opponent := bugPlayerB
    grid := Grid.init [bugPlayerB, bugPlayerW] (8, 8)
    cache := none }

/-- Transcription of the capture-scan description (with the direction corrected
to piece minus target): starting from m, the next stepped-to coordinate is
m + delta; a chain entry must equal it, be on board, not EMPTY and not the
mover's, and the scan continues from it; the scan ends when the coordinate
stepped to after the last chain entry holds the mover's piece. -/
def scanSpecB (pl : Player) (g : Grid) (delta : Coord) : Coord → Chain → Bool
  | m, [] => move_on_board g (m.1 + delta.1, m.2 + delta.2) == some pl.name
  | m, c :: rest =>
      decide (c = (m.1 + delta.1, m.2 + delta.2)) &&
      (move_on_board g c).isSome &&
      decide (move_on_board g c ≠ some EMPTY) &&
      decide (move_on_board g c ≠ some pl.name) &&
      scanSpecB pl g delta c rest

set_option maxRecDepth 8000

/-- C5: in the freshly constructed game (standard 8x8 start, b to move),
possible_moves returns exactly 4 target coordinates, and each target's capture
chain has exactly one coordinate, which is an opponent piece. -/
theorem C5_initial_legality :
    (Game.init.possible_moves).1.length = 4 ∧
    ((Game.init.possible_moves).1.all fun e =>
      (e.2.length == 1) && e.2.all fun c => decide (c ∈ Game.init.opponent.pieces)) = true := by
  decide

/-- C3 counterexample: on the initial board, for the candidate target
t = (2,3) generated from the opponent piece p = (3,3) (so (dx,dy) = t - p =
(-1,0)), the source's scan (stepping by p - t) accepts the direction with
chain [(3,3)], while a scan stepping by (dx,dy) = t - p, the direction from
the opponent piece to the target as the claim states, rejects it. -/
theorem C3_counterexample :
    playable Game.init.grid Game.init.player (2, 3) (3, 3) = some [(3, 3)] ∧
    playable_specDir Game.init.grid Game.init.player (2, 3) (3, 3) = none := by
  decide

/-- C1 counterexample: applying Game.play to the coordinate (0,0), which is not
a key of the initial legal-move map, does not return with the state unchanged:
it raises (modelled as Except.error) only after placing the mover's piece, so
at the point the exception propagates the board holds b at (0,0) and (0,0) has
been added to the mover's piece set, even though (0,0) was EMPTY before. -/
theorem C1_counterexample :
    lookupA (Game.init.possible_moves).1 (0, 0) = none ∧
    move_on_board Game.init.grid (0, 0) = some EMPTY ∧
    (Game.init.play (0, 0)).isOk = false ∧
    move_on_board (resultState (Game.init.play (0, 0))).grid (0, 0) = some "b" ∧
    (0, 0) ∈ (resultState (Game.init.play (0, 0))).player.pieces := by
  decide

/-- C2: evaluation of the code at the failing input. In bugGame the mover w has
no legal move, so Game.possible_moves caches the empty map; after the skip
(next_player with skip = true) the cache is not cleared, and possible_moves
returns the stale empty map even though the new mover b does have a legal move
((0,2) capturing (0,1)), which an uncached recomputation shows. The game loop
therefore skips b as well and ends the game prematurely. -/
theorem C2_stale_cache_after_skip :
    bugGame.consistentB = true ∧
    (bugGame.possible_moves).1 = [] ∧
    ((bugGame.possible_moves).2.next_player true).possible_moves.1 = [] ∧
    ((bugGame.possible_moves).2.next_player true).possible_moves_uncached =
      [((0, 2), [(0, 1)])] := by
  decide

theorem move_on_board_neg (g : Grid) (c : Coord) (h : c.1 < 0 ∨ c.2 < 0) :
    move_on_board g c = none := by
  simp [move_on_board, h]

theorem move_on_board_add (g : Grid) (n : String) (p c : Coord) :
    move_on_board (g.add n p) c =
      if c = p ∧ (move_on_board g p).isSome then some n else move_on_board g c := by
  obtain ⟨pa, pb⟩ := p
  obtain ⟨ca, cb⟩ := c
  by_cases hp : pa < 0 ∨ pb < 0
  · have h1 : Grid.add g n (pa, pb) = g := by simp [Grid.add, hp]
    have h2 : move_on_board g (pa, pb) = none := by simp [move_on_board, hp]
    simp [h1, h2]
  · rcases hrow : g.grid[(pa : Int).toNat]? with _ | row
    · have h1 : Grid.add g n (pa, pb) = g := by simp [Grid.add, hp, hrow]
      have h2 : move_on_board g (pa, pb) = none := by simp [move_on_board, hp, hrow]
      simp [h1, h2]
    · have hlt : pa.toNat < g.grid.length := (List.getElem?_eq_some_iff.mp hrow).1
      have h1 : Grid.add g n (pa, pb) =
          { g with grid := g.grid.set pa.toNat (row.set pb.toNat n) } := by
        simp [Grid.add, hp, hrow]
      have h2 : move_on_board g (pa, pb) = row[(pb : Int).toNat]? := by
        simp [move_on_board, hp, hrow]
      rw [h1, h2]
      by_cases hc : ca < 0 ∨ cb < 0
      · have h3 : move_on_board { g with grid := g.grid.set pa.toNat (row.set pb.toNat n) } (ca, cb) = none := by
          simp [move_on_board, hc]
        have h4 : move_on_board g (ca, cb) = none := by
          simp [move_on_board, hc]
        rw [h3, h4, if_neg]
        rintro ⟨he, -⟩
        obtain ⟨rfl, rfl⟩ := Prod.mk.injEq .. ▸ he
        omega
      · have h3 : move_on_board { g with grid := g.grid.set pa.toNat (row.set pb.toNat n) } (ca, cb) =
            match (g.grid.set pa.toNat (row.set pb.toNat n))[(ca : Int).toNat]? with
            | none => none
            | some r => r[(cb : Int).toNat]? := by
          simp [move_on_board, hc]
        have h4 : move_on_board g (ca, cb) =
            match g.grid[(ca : Int).toNat]? with
            | none => none
            | some r => r[(cb : Int).toNat]? := by
          simp [move_on_board, hc]
        rw [h3, h4]
        by_cases hx : ca.toNat = pa.toNat
        · have hca : ca = pa := by omega
          rw [hx, List.getElem?_set_self hlt, hrow]
          dsimp only
          by_cases hy : cb.toNat = pb.toNat
          · have hcb : cb = pb := by omega
            rw [hy, List.getElem?_set]
            rw [if_pos rfl]
            by_cases hlen : pb.toNat < row.length
            · rw [if_pos hlen, if_pos]
              refine ⟨by rw [hca, hcb], ?_⟩
              rw [List.getElem?_eq_getElem hlen]
              rfl
            · rw [if_neg hlen, if_neg, List.getElem?_eq_none (by omega)]
              rintro ⟨-, hs⟩
              rw [List.getElem?_eq_none (by omega)] at hs
              simp at hs
          · rw [List.getElem?_set_ne (by omega), if_neg]
            rintro ⟨he, -⟩
            obtain ⟨-, rfl⟩ := Prod.mk.injEq .. ▸ he
            omega
        · rw [List.getElem?_set_ne (by omega), if_neg]
          rintro ⟨he, -⟩
          obtain ⟨rfl, -⟩ := Prod.mk.injEq .. ▸ he
          omega

theorem isSome_move_on_board_add (g : Grid) (n : String) (p c : Coord) :
    (move_on_board (g.add n p) c).isSome = (move_on_board g c).isSome := by
  rw [move_on_board_add]
  split
  · next h => rw [h.1]; simp [h.2]
  · rfl

theorem move_on_board_foldl_add (name : String) (l : Moves) (g : Grid) (c : Coord) :
    move_on_board (l.foldl (fun gr kv => gr.add name kv.1) g) c =
      if (∃ kv ∈ l, kv.1 = c) ∧ (move_on_board g c).isSome then some name
      else move_on_board g c := by
  induction l generalizing g with
  | nil => simp
  | cons kv rest ih =>
    rw [List.foldl_cons, ih, isSome_move_on_board_add, move_on_board_add]
    by_cases hs : (move_on_board g c).isSome
    · by_cases hrest : ∃ kv' ∈ rest, kv'.1 = c
      · rw [if_pos ⟨hrest, hs⟩, if_pos]
        obtain ⟨kv', h1, h2⟩ := hrest
        exact ⟨⟨kv', List.mem_cons_of_mem _ h1, h2⟩, hs⟩
      · rw [if_neg fun h => hrest h.1]
        by_cases hk : c = kv.1
        · subst hk
          rw [if_pos ⟨rfl, hs⟩, if_pos ⟨⟨kv, List.mem_cons_self .., rfl⟩, hs⟩]
        · rw [if_neg fun h => hk h.1, if_neg]
          rintro ⟨⟨kv', hmem, rfl⟩, -⟩
          rcases List.mem_cons.mp hmem with rfl | hmem
          · exact hk rfl
          · exact hrest ⟨kv', hmem, rfl⟩
    · rw [if_neg, if_neg, if_neg]
      · rintro ⟨-, h2⟩
        exact hs h2
      · rintro ⟨h1, h2⟩
        exact hs (h1 ▸ h2)
      · rintro ⟨-, h2⟩
        exact hs h2

theorem grid_add_shape (g : Grid) (n : String) (p : Coord) :
    (Grid.add g n p).shape = g.shape := by
  unfold Grid.add
  split
  · rfl
  · split <;> rfl

theorem grid_add_length (g : Grid) (n : String) (p : Coord) :
    (Grid.add g n p).grid.length = g.grid.length := by
  unfold Grid.add
  split
  · rfl
  · split
    · rfl
    · simp

theorem grid_add_row_length (g : Grid) (n : String) (p : Coord) (i : Nat) :
    ((Grid.add g n p).grid[i]?.map List.length) = (g.grid[i]?.map List.length) := by
  unfold Grid.add
  split
  · rfl
  · split
    · rfl
    · next row hrow =>
      have hlt : p.1.toNat < g.grid.length := (List.getElem?_eq_some_iff.mp hrow).1
      by_cases hi : p.1.toNat = i
      · subst hi
        rw [List.getElem?_set_self hlt, hrow]
        simp
      · simp [List.getElem?_set_ne hi]

theorem foldl_add_shape (name : String) (l : Moves) (g : Grid) :
    (l.foldl (fun gr kv => gr.add name kv.1) g).shape = g.shape := by
  induction l generalizing g with
  | nil => rfl
  | cons kv rest ih => rw [List.foldl_cons, ih, grid_add_shape]

theorem foldl_add_length (name : String) (l : Moves) (g : Grid) :
    (l.foldl (fun gr kv => gr.add name kv.1) g).grid.length = g.grid.length := by
  induction l generalizing g with
  | nil => rfl
  | cons kv rest ih => rw [List.foldl_cons, ih, grid_add_length]

theorem foldl_add_row_length (name : String) (l : Moves) (g : Grid) (i : Nat) :
    ((l.foldl (fun gr kv => gr.add name kv.1) g).grid[i]?.map List.length) =
      (g.grid[i]?.map List.length) := by
  induction l generalizing g with
  | nil => rfl
  | cons kv rest ih => rw [List.foldl_cons, ih, grid_add_row_length]

theorem grid_eq_of_cells (g1 g2 : Grid) (hs : g1.shape = g2.shape)
    (hlen : g1.grid.length = g2.grid.length)
    (hrows : ∀ i : Nat, (g1.grid[i]?.map List.length) = (g2.grid[i]?.map List.length))
    (hcells : ∀ x y : Nat, move_on_board g1 ((x : Int), (y : Int)) = move_on_board g2 ((x : Int), (y : Int))) :
    g1 = g2 := by
  obtain ⟨s1, l1⟩ := g1
  obtain ⟨s2, l2⟩ := g2
  simp only at hs hlen hrows hcells
  subst hs
  congr 1
  apply List.ext_getElem?
  intro i
  rcases h1 : l1[i]? with _ | r1
  · rcases h2 : l2[i]? with _ | r2
    · rfl
    · exfalso
      have := hrows i
      rw [h1, h2] at this
      simp at this
  · rcases h2 : l2[i]? with _ | r2
    · exfalso
      have := hrows i
      rw [h1, h2] at this
      simp at this
    · have hrl : r1.length = r2.length := by
        have := hrows i
        rw [h1, h2] at this
        simpa using this
      congr 1
      apply List.ext_getElem?
      intro j
      have := hcells i j
      simp only [move_on_board] at this
      rw [if_neg (by omega), if_neg (by omega)] at this
      simpa [Int.toNat_natCast, h1, h2] using this

theorem isSome_move_on_board_foldl_add (name : String) (l : Moves) (g : Grid) (c : Coord) :
    (move_on_board (l.foldl (fun gr kv => gr.add name kv.1) g) c).isSome =
      (move_on_board g c).isSome := by
  rw [move_on_board_foldl_add]
  split
  · next h => rw [h.2]; rfl
  · rfl

theorem exit_fold_eq_add_fold (l : Moves) (g : Grid) :
    l.foldl (fun gr kv => gr.remove kv.1) g = l.foldl (fun gr kv => gr.add EMPTY kv.1) g := by
  rfl

theorem helper_roundtrip_grid (gr : Grid) (moves : Moves)
    (h : ∀ kv ∈ moves, move_on_board gr kv.1 = some EMPTY) :
    moves.foldl (fun x kv => x.remove kv.1) (moves.foldl (fun x kv => x.add "?" kv.1) gr) = gr := by
  rw [exit_fold_eq_add_fold]
  apply grid_eq_of_cells
  · rw [foldl_add_shape, foldl_add_shape]
  · rw [foldl_add_length, foldl_add_length]
  · intro i
    rw [foldl_add_row_length, foldl_add_row_length]
  · intro x y
    rw [move_on_board_foldl_add, isSome_move_on_board_foldl_add, move_on_board_foldl_add]
    by_cases hex : ∃ kv ∈ moves, kv.1 = ((x : Int), (y : Int))
    · obtain ⟨kv, hmem, hkv⟩ := hex
      have hcell : move_on_board gr ((x : Int), (y : Int)) = some EMPTY := hkv ▸ h kv hmem
      rw [if_pos ⟨⟨kv, hmem, hkv⟩, by rw [hcell]; rfl⟩, hcell]
    · rw [if_neg fun hc => hex hc.1, if_neg fun hc => hex hc.1]

theorem helper_roundtrip (g : Game) (moves : Moves)
    (h : ∀ kv ∈ moves, move_on_board g.grid kv.1 = some EMPTY) :
    helper_exit (helper_enter g moves) moves = g := by
  obtain ⟨pl, op, gr, ca⟩ := g
  unfold helper_exit helper_enter
  simp only [Game.mk.injEq, true_and, and_true]
  exact helper_roundtrip_grid gr moves h

/-- C10: entering a Helper context for a legal-move map whose keys are EMPTY
on-board squares writes the marker only at the keys, leaves every other cell
unchanged, and exiting restores the grid exactly: the round trip is the
identity on the game state. -/
theorem C10_helper_roundtrip (g : Game) (moves : Moves)
    (h : ∀ kv ∈ moves, move_on_board g.grid kv.1 = some EMPTY) :
    helper_exit (helper_enter g moves) moves = g ∧
    (∀ kv ∈ moves, move_on_board (helper_enter g moves).grid kv.1 = some "?") ∧
    (∀ c : Coord, (∀ kv ∈ moves, kv.1 ≠ c) →
      move_on_board (helper_enter g moves).grid c = move_on_board g.grid c) := by
  refine ⟨helper_roundtrip g moves h, ?_, ?_⟩
  · intro kv hmem
    show move_on_board (moves.foldl (fun x e => x.add "?" e.1) g.grid) kv.1 = some "?"
    rw [move_on_board_foldl_add, if_pos ⟨⟨kv, hmem, rfl⟩, by rw [h kv hmem]; rfl⟩]
  · intro c hc
    show move_on_board (moves.foldl (fun x e => x.add "?" e.1) g.grid) c = move_on_board g.grid c
    rw [move_on_board_foldl_add, if_neg]
    rintro ⟨⟨kv, hmem, hkv⟩, -⟩
    exact hc kv hmem hkv

theorem C10_witness :
    (∀ kv ∈ Game.init.possible_moves_uncached, move_on_board Game.init.grid kv.1 = some EMPTY) ∧
    helper_exit (helper_enter Game.init Game.init.possible_moves_uncached)
      Game.init.possible_moves_uncached = Game.init ∧
    move_on_board (helper_enter Game.init Game.init.possible_moves_uncached).grid (2, 3) = some "?" ∧
    move_on_board (helper_enter Game.init Game.init.possible_moves_uncached).grid (0, 0) =
      move_on_board Game.init.grid (0, 0) := by
  have h : ∀ kv ∈ Game.init.possible_moves_uncached, move_on_board Game.init.grid kv.1 = some EMPTY := by
    decide
  have hmain := C10_helper_roundtrip Game.init Game.init.possible_moves_uncached h
  exact ⟨h, hmain.1, hmain.2.1 ((2, 3), [(3, 3)]) (by decide), hmain.2.2 (0, 0) (by decide)⟩

theorem rectB_spec (g : Grid) (h : g.rectB = true) :
    g.grid.length = g.shape.2 ∧ ∀ row ∈ g.grid, row.length = g.shape.1 := by
  unfold Grid.rectB at h
  rw [Bool.and_eq_true, beq_iff_eq, List.all_eq_true] at h
  refine ⟨h.1, fun row hrow => ?_⟩
  have := h.2 row hrow
  rwa [beq_iff_eq] at this

/-- C8: the cell lookup move_on_board is total by construction (it returns an
Option, never raises), and on any rectangular grid it returns the off-board
signal none exactly when a coordinate component is negative or at least the
respective board dimension; otherwise it returns the stored owner of the
cell. -/
theorem C8_move_on_board_total (g : Grid) (a b : Int) (h : g.rectB = true) :
    (move_on_board g (a, b) = none ↔
      (a < 0 ∨ b < 0 ∨ (g.shape.2 : Int) ≤ a ∨ (g.shape.1 : Int) ≤ b)) ∧
    (¬ (a < 0 ∨ b < 0 ∨ (g.shape.2 : Int) ≤ a ∨ (g.shape.1 : Int) ≤ b) →
      move_on_board g (a, b) = some ((g.grid.getD a.toNat []).getD b.toNat EMPTY)) := by
  obtain ⟨hlen, hrows⟩ := rectB_spec g h
  by_cases hneg : a < 0 ∨ b < 0
  · have hm : move_on_board g (a, b) = none := move_on_board_neg g (a, b) hneg
    exact ⟨⟨fun _ => Or.elim hneg (fun ha => Or.inl ha) (fun hb => Or.inr (Or.inl hb)),
      fun _ => hm⟩, fun hcon => absurd (Or.elim hneg Or.inl (Or.inr ∘ Or.inl)) hcon⟩
  · have hm : move_on_board g (a, b) =
        match g.grid[(a : Int).toNat]? with
        | none => none
        | some row => row[(b : Int).toNat]? := by
      simp [move_on_board, hneg]
    rcases hrow : g.grid[(a : Int).toNat]? with _ | row
    · have hge : g.grid.length ≤ a.toNat := List.getElem?_eq_none_iff.mp hrow
      have hm2 : move_on_board g (a, b) = none := by rw [hm, hrow]
      rw [hm2]
      constructor
      · exact ⟨fun _ => Or.inr (Or.inr (Or.inl (by omega))), fun _ => rfl⟩
      · intro hcon
        exact absurd (Or.inr (Or.inr (Or.inl (by omega)))) hcon
    · have halt : a.toNat < g.grid.length := (List.getElem?_eq_some_iff.mp hrow).1
      have hrl : row.length = g.shape.1 := hrows row (List.getElem?_mem hrow)
      have hm2 : move_on_board g (a, b) = row[(b : Int).toNat]? := by rw [hm, hrow]
      rw [hm2]
      rcases hv : row[(b : Int).toNat]? with _ | v
      · have hge : row.length ≤ b.toNat := List.getElem?_eq_none_iff.mp hv
        constructor
        · exact ⟨fun _ => Or.inr (Or.inr (Or.inr (by omega))), fun _ => rfl⟩
        · intro hcon
          exact absurd (Or.inr (Or.inr (Or.inr (by omega)))) hcon
      · have hblt : b.toNat < row.length := (List.getElem?_eq_some_iff.mp hv).1
        constructor
        · constructor
          · intro hcon
            exact absurd hcon (by simp)
          · intro hcon
            exfalso
            rcases hcon with h1 | h1 | h1 | h1 <;> omega
        · intro hcon
          simp [List.getD_eq_getElem?_getD, hrow, hv]

theorem C8_witness :
    Game.init.grid.rectB = true ∧
    ((move_on_board Game.init.grid (9, 2) = none ↔
      ((9 : Int) < 0 ∨ (2 : Int) < 0 ∨ (Game.init.grid.shape.2 : Int) ≤ 9 ∨
        (Game.init.grid.shape.1 : Int) ≤ 2)) ∧
    (¬ ((9 : Int) < 0 ∨ (2 : Int) < 0 ∨ (Game.init.grid.shape.2 : Int) ≤ 9 ∨
        (Game.init.grid.shape.1 : Int) ≤ 2) →
      move_on_board Game.init.grid (9, 2) =
        some ((Game.init.grid.grid.getD (9 : Int).toNat []).getD (2 : Int).toNat EMPTY))) :=
  ⟨by decide, C8_move_on_board_total Game.init.grid 9 2 (by decide)⟩

theorem walksF_sound (pl : Player) (g : Grid) :
    ∀ (n : Nat) (m delta : Coord) (chain : Chain),
      walksF pl g n m delta = some (some chain) → scanSpecB pl g delta m chain = true := by
  intro n
  induction n with
  | zero =>
    intro m delta chain h
    simp [walksF] at h
  | succ n ih =>
    intro m delta chain h
    rcases hcell : move_on_board g (m.1 + delta.1, m.2 + delta.2) with _ | spot
    · rw [walksF] at h
      simp only [hcell] at h
      cases h
    · rw [walksF] at h
      simp only [hcell] at h
      by_cases he : spot = EMPTY
      · rw [if_pos he] at h
        cases h
      · rw [if_neg he] at h
        by_cases hn : spot = pl.name
        · rw [if_neg (by simp [hn])] at h
          have hch : chain = [] := by
            injection h with h1
            injection h1 with h2
            exact h2.symm
          subst hch
          simp [scanSpecB, hcell, hn]
        · rw [if_pos (by simp [hn])] at h
          rcases hrec : walksF pl g n (m.1 + delta.1, m.2 + delta.2) delta with _ | r
          · rw [hrec] at h
            cases h
          · rw [hrec] at h
            rcases r with _ | rest
            · simp at h
            · simp only [Option.map] at h
              have hch : chain = (m.1 + delta.1, m.2 + delta.2) :: rest := by
                injection h with h1
                injection h1 with h2
                exact h2.symm
              subst hch
              have hrs := ih (m.1 + delta.1, m.2 + delta.2) delta rest (by rw [hrec])
              simp [scanSpecB, hcell, he, hn, hrs]

theorem walksF_complete (pl : Player) (g : Grid) (delta : Coord) (hname : pl.name ≠ EMPTY) :
    ∀ (chain : Chain) (m : Coord) (n : Nat), scanSpecB pl g delta m chain = true →
      chain.length + 1 ≤ n → walksF pl g n m delta = some (some chain) := by
  intro chain
  induction chain with
  | nil =>
    intro m n h hn
    obtain ⟨k, rfl⟩ : ∃ k, n = k + 1 := ⟨n - 1, by omega⟩
    have hcell : move_on_board g (m.1 + delta.1, m.2 + delta.2) = some pl.name := by
      simpa [scanSpecB] using h
    rw [walksF]
    simp only [hcell]
    rw [if_neg hname, if_neg (by simp)]
  | cons c rest ih =>
    intro m n h hn
    obtain ⟨k, rfl⟩ : ∃ k, n = k + 1 := ⟨n - 1, by omega⟩
    simp only [scanSpecB, Bool.and_eq_true, decide_eq_true_eq] at h
    obtain ⟨⟨⟨⟨hc, hsome⟩, hne⟩, hnn⟩, hrest⟩ := h
    rcases hv : move_on_board g c with _ | v
    · rw [hv] at hsome
      cases hsome
    · have hvne : v ≠ EMPTY := by
        rw [hv] at hne
        simpa using hne
      have hvnn : v ≠ pl.name := by
        rw [hv] at hnn
        simpa using hnn
      rw [walksF]
      simp only [← hc, hv]
      rw [if_neg hvne, if_pos (by simp [hvnn])]
      rw [ih c k hrest (by simpa using hn)]
      rfl

theorem cell_isSome_bounds (g : Grid) (x y : Int)
    (h : (move_on_board g (x, y)).isSome = true) :
    0 ≤ x ∧ x < (g.grid.length : Int) ∧ 0 ≤ y ∧
      ∃ row, g.grid[x.toNat]? = some row ∧ y < (row.length : Int) := by
  unfold move_on_board at h
  by_cases hneg : x < 0 ∨ y < 0
  · rw [if_pos (by exact hneg)] at h
    simp at h
  · rw [if_neg (by exact hneg)] at h
    dsimp only at h
    rcases hrow : g.grid[(x : Int).toNat]? with _ | row
    · rw [hrow] at h
      simp at h
    · rw [hrow] at h
      dsimp only at h
      have hx : x.toNat < g.grid.length := (List.getElem?_eq_some_iff.mp hrow).1
      have hy : y.toNat < row.length := by
        rcases hv : row[(y : Int).toNat]? with _ | v
        · rw [hv] at h
          simp at h
        · exact (List.getElem?_eq_some_iff.mp hv).1
      exact ⟨by omega, by omega, by omega, row, by simp [hrow], by omega⟩

theorem le_foldr_max (a : Nat) (l : List Nat) (h : a ∈ l) : a ≤ l.foldr max 0 := by
  induction l with
  | nil => cases h
  | cons b rest ih =>
    rcases List.mem_cons.mp h with rfl | h
    · exact Nat.le_max_left _ _
    · exact Nat.le_trans (ih h) (Nat.le_max_right _ _)

theorem row_length_le (g : Grid) (row : List String) (h : row ∈ g.grid) :
    row.length ≤ (g.grid.map List.length).foldr max 0 :=
  le_foldr_max _ _ (List.mem_map_of_mem List.length h)

theorem scanSpecB_terminal (pl : Player) (g : Grid) (delta : Coord) :
    ∀ (chain : Chain) (m : Coord), scanSpecB pl g delta m chain = true →
      move_on_board g (m.1 + ((chain.length : Int) + 1) * delta.1,
        m.2 + ((chain.length : Int) + 1) * delta.2) = some pl.name := by
  intro chain
  induction chain with
  | nil =>
    intro m h
    have hcell : move_on_board g (m.1 + delta.1, m.2 + delta.2) = some pl.name := by
      simpa [scanSpecB] using h
    have h1 : m.1 + ((([] : Chain).length : Int) + 1) * delta.1 = m.1 + delta.1 := by
      push_cast [List.length_nil]
      ring
    have h2 : m.2 + ((([] : Chain).length : Int) + 1) * delta.2 = m.2 + delta.2 := by
      push_cast [List.length_nil]
      ring
    rw [h1, h2]
    exact hcell
  | cons c rest ih =>
    intro m h
    simp only [scanSpecB, Bool.and_eq_true, decide_eq_true_eq] at h
    obtain ⟨⟨⟨⟨hc, hsome⟩, hne⟩, hnn⟩, hrest⟩ := h
    have := ih c hrest
    rw [hc] at this
    have h1 : (m.1 + delta.1) + ((rest.length : Int) + 1) * delta.1 =
        m.1 + (((c :: rest).length : Int) + 1) * delta.1 := by
      push_cast [List.length_cons]
      ring
    have h2 : (m.2 + delta.2) + ((rest.length : Int) + 1) * delta.2 =
        m.2 + (((c :: rest).length : Int) + 1) * delta.2 := by
      push_cast [List.length_cons]
      ring
    rw [h1, h2] at this
    exact this

theorem scanSpecB_fuel_bound (pl : Player) (g : Grid) (delta : Coord) (t : Coord) (chain : Chain)
    (hd1 : delta.1 = -1 ∨ delta.1 = 0 ∨ delta.1 = 1)
    (hd2 : delta.2 = -1 ∨ delta.2 = 0 ∨ delta.2 = 1)
    (hd0 : delta ≠ (0, 0))
    (ht : (move_on_board g t).isSome = true)
    (h : scanSpecB pl g delta t chain = true) :
    chain.length + 1 ≤ Grid.fuel g := by
  obtain ⟨ta, tb⟩ := t
  have hterm := scanSpecB_terminal pl g delta chain (ta, tb) h
  have htermS : (move_on_board g (ta + ((chain.length : Int) + 1) * delta.1,
      tb + ((chain.length : Int) + 1) * delta.2)).isSome = true := by
    rw [hterm]; rfl
  obtain ⟨hx0, hxlen, hy0, rowT, hrowT, hyrow⟩ := cell_isSome_bounds g ta tb ht
  obtain ⟨hx0e, hxlene, hy0e, rowE, hrowE, hyrowE⟩ :=
    cell_isSome_bounds g _ _ htermS
  have hrTle : rowT.length ≤ (g.grid.map List.length).foldr max 0 :=
    row_length_le g rowT (List.getElem?_mem hrowT)
  have hrEle : rowE.length ≤ (g.grid.map List.length).foldr max 0 :=
    row_length_le g rowE (List.getElem?_mem hrowE)
  unfold Grid.fuel
  rcases hd1 with hca | hca | hca
  · rw [hca] at hx0e hxlene
    omega
  · rcases hd2 with hcb | hcb | hcb
    · rw [hcb] at hy0e hyrowE
      omega
    · exact absurd (Prod.ext hca hcb) hd0
    · rw [hcb] at hy0e hyrowE
      omega
  · rw [hca] at hx0e hxlene
    omega

theorem walks_eq_iff (pl : Player) (g : Grid) (m delta : Coord) (chain : Chain) :
    walks_to_player pl g m delta = some chain ↔
      walksF pl g (Grid.fuel g) m delta = some (some chain) := by
  unfold walks_to_player
  rcases h : walksF pl g (Grid.fuel g) m delta with _ | r
  · simp
  · simp

theorem playable_eq (g : Grid) (pl : Player) (t p : Coord) :
    playable g pl t p =
      if t = p then none
      else if move_on_board g t ≠ some EMPTY then none
      else match walks_to_player pl g t (p.1 - t.1, p.2 - t.2) with
           | some chain => if chain = [] then none else some chain
           | none => none := by
  unfold playable
  by_cases htp : t = p
  · rw [if_pos htp, if_pos htp]
  · rw [if_neg htp, if_neg htp]
    rcases hcell : move_on_board g t with _ | v
    · simp
    · dsimp only
      by_cases hemp : v = EMPTY
      · subst hemp
        simp [empty, hcell]
      · simp [empty, hcell, hemp]

theorem playable_spec (g : Grid) (pl : Player) (t p : Coord) (chain : Chain)
    (h : playable g pl t p = some chain) :
    t ≠ p ∧ move_on_board g t = some EMPTY ∧ chain ≠ [] ∧
      scanSpecB pl g (p.1 - t.1, p.2 - t.2) t chain = true := by
  rw [playable_eq] at h
  by_cases htp : t = p
  · rw [if_pos htp] at h
    cases h
  · rw [if_neg htp] at h
    by_cases hcell : move_on_board g t ≠ some EMPTY
    · rw [if_pos hcell] at h
      cases h
    · rw [if_neg hcell] at h
      rw [not_not] at hcell
      rcases hw : walks_to_player pl g t (p.1 - t.1, p.2 - t.2) with _ | chain2
      · rw [hw] at h
        cases h
      · rw [hw] at h
        dsimp only at h
        by_cases hne : chain2 = []
        · rw [if_pos hne] at h
          cases h
        · rw [if_neg hne] at h
          injection h with h2
          subst h2
          refine ⟨htp, hcell, hne, ?_⟩
          exact walksF_sound pl g (Grid.fuel g) t _ chain2 ((walks_eq_iff pl g t _ chain2).mp hw)

theorem playable_complete (g : Grid) (pl : Player) (t p : Coord) (chain : Chain)
    (hname : pl.name ≠ EMPTY)
    (hd1 : p.1 - t.1 = -1 ∨ p.1 - t.1 = 0 ∨ p.1 - t.1 = 1)
    (hd2 : p.2 - t.2 = -1 ∨ p.2 - t.2 = 0 ∨ p.2 - t.2 = 1)
    (htp : t ≠ p) (hcell : move_on_board g t = some EMPTY) (hne : chain ≠ [])
    (hspec : scanSpecB pl g (p.1 - t.1, p.2 - t.2) t chain = true) :
    playable g pl t p = some chain := by
  have hd0 : ((p.1 - t.1, p.2 - t.2) : Coord) ≠ (0, 0) := by
    intro hc
    apply htp
    obtain ⟨ta, tb⟩ := t
    obtain ⟨pa, pb⟩ := p
    simp only [Prod.mk.injEq] at hc ⊢
    omega
  have htS : (move_on_board g t).isSome = true := by rw [hcell]; rfl
  have hfuel : chain.length + 1 ≤ Grid.fuel g :=
    scanSpecB_fuel_bound pl g (p.1 - t.1, p.2 - t.2) t chain hd1 hd2 hd0 htS hspec
  have hF : walksF pl g (Grid.fuel g) t (p.1 - t.1, p.2 - t.2) = some (some chain) :=
    walksF_complete pl g (p.1 - t.1, p.2 - t.2) hname chain t (Grid.fuel g) hspec hfuel
  have hw : walks_to_player pl g t (p.1 - t.1, p.2 - t.2) = some chain :=
    (walks_eq_iff pl g t _ chain).mpr hF
  rw [playable_eq, if_neg htp, if_neg (by rw [hcell]; exact fun hc => hc rfl), hw]
  dsimp only
  rw [if_neg hne]

/-- C3 amended: the capture scan for a candidate target t generated from an
opponent piece p starts at t and steps repeatedly by p - t (the direction from
the target square back through the originating opponent piece), not by the
claimed t - p: a stepped-to coordinate that is off board or EMPTY rejects the
direction, an opponent-owned one is appended to the chain and stepping
continues, and a mover-owned one stops the walk with the accumulated
(non-empty) chain as the capture for this direction. -/
theorem C3_amended_scan_direction (g : Grid) (pl : Player) (t p : Coord)
    (hname : pl.name ≠ EMPTY)
    (hd1 : p.1 - t.1 = -1 ∨ p.1 - t.1 = 0 ∨ p.1 - t.1 = 1)
    (hd2 : p.2 - t.2 = -1 ∨ p.2 - t.2 = 0 ∨ p.2 - t.2 = 1)
    (chain : Chain) :
    playable g pl t p = some chain ↔
      (t ≠ p ∧ move_on_board g t = some EMPTY ∧ chain ≠ [] ∧
        scanSpecB pl g (p.1 - t.1, p.2 - t.2) t chain = true) := by
  constructor
  · exact playable_spec g pl t p chain
  · rintro ⟨htp, hcell, hne, hspec⟩
    exact playable_complete g pl t p chain hname hd1 hd2 htp hcell hne hspec

theorem C3_amended_witness :
    playable Game.init.grid Game.init.player (2, 3) (3, 3) = some [(3, 3)] :=
  (C3_amended_scan_direction Game.init.grid Game.init.player (2, 3) (3, 3)
    (by decide) (by decide) (by decide) [(3, 3)]).mpr (by decide)

theorem lookupA_append (l1 l2 : Moves) (k : Coord) :
    lookupA (l1 ++ l2) k =
      match lookupA l1 k with
      | some v => some v
      | none => lookupA l2 k := by
  induction l1 with
  | nil => rfl
  | cons e rest ih =>
    by_cases he : e.1 = k
    · simp [lookupA, he]
    · simp [lookupA, he, ih]

theorem lookupA_map_update (l : Moves) (k : Coord) (v : Chain) (t : Coord) :
    lookupA (l.map fun kv => if kv.1 = k then (kv.1, kv.2 ++ v) else kv) t =
      if t = k then (lookupA l t).map (· ++ v) else lookupA l t := by
  induction l with
  | nil => simp [lookupA]
  | cons e rest ih =>
    by_cases hek : e.1 = k <;> by_cases het : e.1 = t <;> by_cases htk : t = k <;>
      simp_all [lookupA, List.map_cons]

theorem lookupA_eq_none_iff (l : Moves) (k : Coord) :
    lookupA l k = none ↔ k ∉ l.map Prod.fst := by
  induction l with
  | nil => simp [lookupA]
  | cons e rest ih =>
    by_cases he : e.1 = k
    · simp [lookupA, he]
    · rw [lookupA, if_neg he, List.map_cons, List.mem_cons, ih]
      constructor
      · rintro h (hc | hc)
        · exact he hc.symm
        · exact h hc
      · intro h hc
        exact h (Or.inr hc)

theorem mem_of_lookupA (l : Moves) (k : Coord) (v : Chain) (h : lookupA l k = some v) :
    (k, v) ∈ l := by
  induction l with
  | nil => cases h
  | cons e rest ih =>
    by_cases he : e.1 = k
    · rw [lookupA, if_pos he] at h
      injection h with h2
      have he2 : e = (k, v) := by
        obtain ⟨e1, e2⟩ := e
        simp only at he h2
        rw [he, h2]
      rw [← he2]
      exact List.mem_cons_self _ _
    · rw [lookupA, if_neg he] at h
      exact List.mem_cons_of_mem _ (ih h)

theorem lookupA_of_mem (l : Moves) (kv : Coord × Chain) (hnd : (l.map Prod.fst).Nodup)
    (h : kv ∈ l) : lookupA l kv.1 = some kv.2 := by
  induction l with
  | nil => cases h
  | cons e rest ih =>
    rcases List.mem_cons.mp h with rfl | h2
    · rw [lookupA, if_pos rfl]
    · have hne : e.1 ≠ kv.1 := by
        intro hc
        have : kv.1 ∈ rest.map Prod.fst := List.mem_map_of_mem Prod.fst h2
        rw [List.map_cons] at hnd
        exact (List.nodup_cons.mp hnd).1 (hc ▸ this)
      rw [lookupA, if_neg hne]
      exact ih (List.nodup_cons.mp (List.map_cons Prod.fst e rest ▸ hnd)).2 h2

theorem insert_keys_update (l : Moves) (k : Coord) (v : Chain) :
    ((l.map fun kv => if kv.1 = k then (kv.1, kv.2 ++ v) else kv).map Prod.fst) =
      l.map Prod.fst := by
  rw [List.map_map]
  apply List.map_congr_left
  intro kv hmem
  by_cases he : kv.1 = k
  · simp [he]
  · simp [he]

theorem insertEntry_pos (B : Moves) (e : Coord × Chain) (hs : (lookupA B e.1).isSome = true) :
    insertEntry B e = B.map fun kv => if kv.1 = e.1 then (kv.1, kv.2 ++ e.2) else kv := by
  unfold insertEntry
  rw [if_pos hs]

theorem insertEntry_neg (B : Moves) (e : Coord × Chain) (hs : ¬ (lookupA B e.1).isSome = true) :
    insertEntry B e = B ++ [e] := by
  unfold insertEntry
  rw [if_neg hs]

theorem buildRes_keys_nodup (l : Moves) : (((l.foldl insertEntry []).map Prod.fst)).Nodup := by
  induction l using List.reverseRecOn with
  | nil => simp
  | append_singleton rest e ih =>
    rw [List.foldl_append, List.foldl_cons, List.foldl_nil]
    by_cases hs : (lookupA (rest.foldl insertEntry []) e.1).isSome = true
    · rw [insertEntry_pos _ _ hs, insert_keys_update]
      exact ih
    · rw [insertEntry_neg _ _ hs, List.map_append]
      have hnotin : e.1 ∉ (rest.foldl insertEntry []).map Prod.fst := by
        rw [← lookupA_eq_none_iff]
        rcases hl : lookupA (rest.foldl insertEntry []) e.1 with _ | v
        · rfl
        · rw [hl] at hs
          exact absurd rfl hs
      rw [List.nodup_append]
      exact ⟨ih, List.nodup_singleton _,
        fun a ha hb => hnotin ((List.mem_singleton.mp hb) ▸ ha)⟩

theorem lookupA_buildRes (l : Moves) (t : Coord) :
    lookupA (l.foldl insertEntry []) t =
      if (l.filter fun e => decide (e.1 = t)).isEmpty then none
      else some ((l.filter fun e => decide (e.1 = t)).flatMap Prod.snd) := by
  induction l using List.reverseRecOn with
  | nil => simp [lookupA]
  | append_singleton rest e ih =>
    rw [List.foldl_append, List.foldl_cons, List.foldl_nil, List.filter_append]
    by_cases hs : (lookupA (rest.foldl insertEntry []) e.1).isSome = true
    · rw [insertEntry_pos _ _ hs, lookupA_map_update]
      by_cases hte : t = e.1
      · rw [if_pos hte, ih]
        have hfe : (List.filter (fun e2 => decide (e2.1 = t)) [e]) = [e] := by
          simp only [List.filter_cons, List.filter_nil]
          rw [if_pos]
          simp only [decide_eq_true_eq]
          exact hte.symm
        rw [hfe]
        have hne : ¬ (rest.filter fun e2 => decide (e2.1 = t)).isEmpty = true := by
          intro hc
          rw [if_pos hc] at ih
          rw [← hte] at hs
          rw [ih] at hs
          simp at hs
        rw [if_neg hne]
        have hne2 : ¬ ((rest.filter fun e2 => decide (e2.1 = t)) ++ [e]).isEmpty = true := by
          simp [List.isEmpty_iff] at hne ⊢
        rw [if_neg hne2]
        simp [List.flatMap_append]
      · rw [if_neg hte, ih]
        have hfe : (List.filter (fun e2 => decide (e2.1 = t)) [e]) = [] := by
          simp only [List.filter_cons, List.filter_nil]
          rw [if_neg]
          simp only [decide_eq_true_eq]
          exact fun hc => hte hc.symm
        rw [hfe, List.append_nil]
    · rw [insertEntry_neg _ _ hs, lookupA_append, ih]
      have hnone : lookupA (rest.foldl insertEntry []) e.1 = none := by
        rcases hl : lookupA (rest.foldl insertEntry []) e.1 with _ | v
        · rfl
        · rw [hl] at hs
          exact absurd rfl hs
      by_cases hte : t = e.1
      · have hem : (rest.filter fun e2 => decide (e2.1 = t)).isEmpty = true := by
          by_cases hc : (rest.filter fun e2 => decide (e2.1 = t)).isEmpty = true
          · exact hc
          · exfalso
            rw [← hte] at hnone
            rw [ih, if_neg hc] at hnone
            cases hnone
        have hem2 : (rest.filter fun e2 => decide (e2.1 = t)) = [] :=
          List.isEmpty_iff.mp hem
        have hfe : (List.filter (fun e2 => decide (e2.1 = t)) [e]) = [e] := by
          simp only [List.filter_cons, List.filter_nil]
          rw [if_pos]
          simp only [decide_eq_true_eq]
          exact hte.symm
        rw [hem2, hfe]
        simp [lookupA, ← hte]
      · have hfe : (List.filter (fun e2 => decide (e2.1 = t)) [e]) = [] := by
          simp only [List.filter_cons, List.filter_nil]
          rw [if_neg]
          simp only [decide_eq_true_eq]
          exact fun hc => hte hc.symm
        rw [hfe, List.append_nil]
        have hlo : lookupA [e] t = none := by
          rw [lookupA, if_neg fun hc => hte hc.symm]
          rfl
        by_cases hc : (rest.filter fun e2 => decide (e2.1 = t)).isEmpty = true
        · rw [if_pos hc]
          exact hlo
        · rw [if_neg hc]

theorem mem_walk_iff (pl : Player) (piece : Coord) (g : Grid) (kv : Coord × Chain) :
    kv ∈ walk pl piece g ↔
      ((kv.1.1 = piece.1 - 1 ∨ kv.1.1 = piece.1 ∨ kv.1.1 = piece.1 + 1) ∧
       (kv.1.2 = piece.2 - 1 ∨ kv.1.2 = piece.2 ∨ kv.1.2 = piece.2 + 1) ∧
       playable g pl kv.1 piece = some kv.2) := by
  unfold walk
  rw [List.mem_flatMap]
  constructor
  · rintro ⟨i, hi, hmem⟩
    rw [List.mem_filterMap] at hmem
    obtain ⟨j, hj, hpl⟩ := hmem
    rcases hp : playable g pl (i, j) piece with _ | chain
    · rw [hp] at hpl
      cases hpl
    · rw [hp] at hpl
      injection hpl with h2
      subst h2
      simp only [List.mem_cons, List.mem_singleton, List.not_mem_nil, or_false] at hi hj
      refine ⟨?_, ?_, hp⟩
      · rcases hi with rfl | rfl | rfl
        · exact Or.inl rfl
        · exact Or.inr (Or.inl rfl)
        · exact Or.inr (Or.inr rfl)
      · rcases hj with rfl | rfl | rfl
        · exact Or.inl rfl
        · exact Or.inr (Or.inl rfl)
        · exact Or.inr (Or.inr rfl)
  · rintro ⟨hi, hj, hpl⟩
    refine ⟨kv.1.1, ?_, ?_⟩
    · simp only [List.mem_cons, List.mem_singleton, List.not_mem_nil, or_false]
      exact hi
    · rw [List.mem_filterMap]
      refine ⟨kv.1.2, ?_, ?_⟩
      · simp only [List.mem_cons, List.mem_singleton, List.not_mem_nil, or_false]
        exact hj
      · have hkv : ((kv.1.1, kv.1.2) : Coord) = kv.1 := rfl
        rw [hkv, hpl]

theorem walk_keys_nodup (pl : Player) (piece : Coord) (g : Grid) :
    ((walk pl piece g).map Prod.fst).Nodup := by
  unfold walk
  rw [List.map_flatMap]
  have hinner : ∀ i : Int,
      ((List.filterMap (fun j =>
        match playable g pl (i, j) piece with
        | some chain => some ((i, j), chain)
        | none => none) [piece.2 - 1, piece.2, piece.2 + 1]).map Prod.fst) =
      (List.filterMap (fun j =>
        match playable g pl (i, j) piece with
        | some _ => some ((i, j) : Coord)
        | none => none) [piece.2 - 1, piece.2, piece.2 + 1]) := by
    intro i
    rw [List.map_filterMap]
    apply List.filterMap_congr
    intro j hj
    rcases hp : playable g pl (i, j) piece with _ | chain
    · rfl
    · rfl
  have hmemkey : ∀ (i : Int) (k : Coord), k ∈ (List.filterMap (fun j =>
        match playable g pl (i, j) piece with
        | some _ => some ((i, j) : Coord)
        | none => none) [piece.2 - 1, piece.2, piece.2 + 1]) → k.1 = i := by
    intro i k hk
    rw [List.mem_filterMap] at hk
    obtain ⟨j, hj, hmatch⟩ := hk
    rcases hp : playable g pl (i, j) piece with _ | chain
    · rw [hp] at hmatch
      cases hmatch
    · rw [hp] at hmatch
      injection hmatch with h2
      rw [← h2]
  rw [List.nodup_flatMap]
  constructor
  · intro i hi
    rw [hinner i]
    apply List.Nodup.filterMap
    · intro a b k hka hkb
      rcases hpa : playable g pl (i, a) piece with _ | ca
      · rw [hpa] at hka
        cases hka
      · rw [hpa] at hka
        rcases hpb : playable g pl (i, b) piece with _ | cb
        · rw [hpb] at hkb
          cases hkb
        · rw [hpb] at hkb
          dsimp only at hka hkb
          simp only [Option.mem_def] at hka hkb
          injection hka with h1
          injection hkb with h2
          have h3 := h1.trans h2.symm
          rw [Prod.mk.injEq] at h3
          exact h3.2
    · refine List.nodup_cons.mpr ⟨?_, List.nodup_cons.mpr ⟨?_, List.nodup_singleton _⟩⟩
      · intro h
        rcases List.mem_cons.mp h with h | h
        · omega
        · rw [List.mem_singleton] at h
          omega
      · intro h
        rw [List.mem_singleton] at h
        omega
  · have hdisj : ∀ i1 i2 : Int, i1 ≠ i2 →
        List.Disjoint
          ((List.filterMap (fun j =>
            match playable g pl (i1, j) piece with
            | some chain => some ((i1, j), chain)
            | none => none) [piece.2 - 1, piece.2, piece.2 + 1]).map Prod.fst)
          ((List.filterMap (fun j =>
            match playable g pl (i2, j) piece with
            | some chain => some ((i2, j), chain)
            | none => none) [piece.2 - 1, piece.2, piece.2 + 1]).map Prod.fst) := by
      intro i1 i2 hne k hk1 hk2
      rw [hinner i1] at hk1
      rw [hinner i2] at hk2
      exact hne ((hmemkey i1 k hk1).symm.trans (hmemkey i2 k hk2))
    refine List.pairwise_cons.mpr ⟨?_, List.pairwise_cons.mpr ⟨?_, List.pairwise_singleton _ _⟩⟩
    · intro b hb
      rcases List.mem_cons.mp hb with rfl | hb
      · exact hdisj _ _ (by omega)
      · rw [List.mem_singleton] at hb
        subst hb
        exact hdisj _ _ (by omega)
    · intro b hb
      rw [List.mem_singleton] at hb
      subst hb
      exact hdisj _ _ (by omega)

theorem scanSpecB_get (pl : Player) (g : Grid) (delta : Coord) :
    ∀ (chain : Chain) (m : Coord), scanSpecB pl g delta m chain = true →
      ∀ i : Fin chain.length,
        chain.get i = (m.1 + ((i : Nat) + 1) * delta.1, m.2 + ((i : Nat) + 1) * delta.2) ∧
        (move_on_board g (chain.get i)).isSome = true ∧
        move_on_board g (chain.get i) ≠ some EMPTY ∧
        move_on_board g (chain.get i) ≠ some pl.name := by
  intro chain
  induction chain with
  | nil =>
    intro m h i
    exact absurd i.isLt (by simp)
  | cons c rest ih =>
    intro m h i
    simp only [scanSpecB, Bool.and_eq_true, decide_eq_true_eq] at h
    obtain ⟨⟨⟨⟨hc, hsome⟩, hne⟩, hnn⟩, hrest⟩ := h
    rcases i with ⟨iv, hlt⟩
    cases iv with
    | zero =>
      refine ⟨?_, hsome, hne, hnn⟩
      show c = _
      rw [hc]
      have e1 : m.1 + ((0 : Nat) + 1 : Int) * delta.1 = m.1 + delta.1 := by
        push_cast
        ring
      have e2 : m.2 + ((0 : Nat) + 1 : Int) * delta.2 = m.2 + delta.2 := by
        push_cast
        ring
      rw [e1, e2]
    | succ iv2 =>
      have hlt2 : iv2 < rest.length := by
        simp only [List.length_cons] at hlt
        omega
      have hget : (c :: rest).get ⟨iv2 + 1, hlt⟩ = rest.get ⟨iv2, hlt2⟩ := rfl
      rw [hget]
      obtain ⟨hpos, hs2, hn2, hm2⟩ := ih c hrest ⟨iv2, hlt2⟩
      refine ⟨?_, hs2, hn2, hm2⟩
      rw [hpos, hc]
      have e1 : m.1 + delta.1 + ((iv2 : Int) + 1) * delta.1 =
          m.1 + (((iv2 + 1 : Nat) : Int) + 1) * delta.1 := by
        push_cast
        ring
      have e2 : m.2 + delta.2 + ((iv2 : Int) + 1) * delta.2 =
          m.2 + (((iv2 + 1 : Nat) : Int) + 1) * delta.2 := by
        push_cast
        ring
      rw [Prod.mk.injEq]
      constructor
      · rw [← e1]
      · rw [← e2]

theorem scanSpecB_nodup (pl : Player) (g : Grid) (delta : Coord) (m : Coord) (chain : Chain)
    (hd0 : delta ≠ (0, 0)) (h : scanSpecB pl g delta m chain = true) : chain.Nodup := by
  rw [List.nodup_iff_injective_get]
  intro i j hij
  have hi := (scanSpecB_get pl g delta chain m h i).1
  have hj := (scanSpecB_get pl g delta chain m h j).1
  rw [hi, hj, Prod.mk.injEq] at hij
  obtain ⟨h1, h2⟩ := hij
  have hd : delta.1 ≠ 0 ∨ delta.2 ≠ 0 := by
    by_contra hc
    push_neg at hc
    exact hd0 (Prod.ext hc.1 hc.2)
  have hij2 : (i : Nat) = (j : Nat) := by
    rcases hd with hd | hd
    · have : ((i : Nat) + 1 : Int) = ((j : Nat) + 1 : Int) := by
        have := mul_right_cancel₀ hd (by linarith [h1] : ((i : Nat) + 1 : Int) * delta.1 = ((j : Nat) + 1 : Int) * delta.1)
        exact this
      omega
    · have : ((i : Nat) + 1 : Int) = ((j : Nat) + 1 : Int) := by
        have := mul_right_cancel₀ hd (by linarith [h2] : ((i : Nat) + 1 : Int) * delta.2 = ((j : Nat) + 1 : Int) * delta.2)
        exact this
      omega
  exact Fin.ext hij2

theorem unit_ray_eq (d e : Coord)
    (hd1 : d.1 = -1 ∨ d.1 = 0 ∨ d.1 = 1) (hd2 : d.2 = -1 ∨ d.2 = 0 ∨ d.2 = 1)
    (he1 : e.1 = -1 ∨ e.1 = 0 ∨ e.1 = 1) (he2 : e.2 = -1 ∨ e.2 = 0 ∨ e.2 = 1)
    (a b : Nat)
    (h1 : ((a : Int) + 1) * d.1 = ((b : Int) + 1) * e.1)
    (h2 : ((a : Int) + 1) * d.2 = ((b : Int) + 1) * e.2) : d = e := by
  obtain ⟨d1, d2⟩ := d
  obtain ⟨e1, e2⟩ := e
  simp only [Prod.mk.injEq]
  simp only at hd1 hd2 he1 he2 h1 h2
  rcases hd1 with rfl | rfl | rfl <;> rcases hd2 with rfl | rfl | rfl <;>
    rcases he1 with rfl | rfl | rfl <;> rcases he2 with rfl | rfl | rfl <;>
    first
      | exact ⟨rfl, rfl⟩
      | (exfalso; omega)

theorem filter_key_single (l : Moves) (t : Coord) (hnd : (l.map Prod.fst).Nodup) :
    (l.filter fun e => decide (e.1 = t)) = [] ∨
      ∃ ch, (l.filter fun e => decide (e.1 = t)) = [(t, ch)] ∧ (t, ch) ∈ l := by
  induction l with
  | nil => exact Or.inl rfl
  | cons e rest ih =>
    rw [List.map_cons, List.nodup_cons] at hnd
    obtain ⟨hnotin, hndr⟩ := hnd
    by_cases he : e.1 = t
    · right
      have hrest : (rest.filter fun e2 => decide (e2.1 = t)) = [] := by
        rw [List.filter_eq_nil_iff]
        intro x hx
        simp only [decide_eq_true_eq]
        intro hc
        exact hnotin (he ▸ hc ▸ List.mem_map_of_mem Prod.fst hx)
      refine ⟨e.2, ?_, ?_⟩
      · rw [List.filter_cons, if_pos (by simpa using he), hrest]
        have he2 : e = (t, e.2) := by
          obtain ⟨e1, es⟩ := e
          simp only at he
          rw [he]
        rw [← he2]
      · have he2 : e = (t, e.2) := by
          obtain ⟨e1, es⟩ := e
          simp only at he
          rw [he]
        rw [← he2]
        exact List.mem_cons_self _ _
    · rw [List.filter_cons, if_neg (by simpa using he)]
      rcases ih hndr with h | ⟨ch, hfil, hmem⟩
      · exact Or.inl h
      · exact Or.inr ⟨ch, hfil, List.mem_cons_of_mem _ hmem⟩

theorem merged_chain_spec (g : Game) (t : Coord) (chain : Chain)
    (h : lookupA g.possible_moves_uncached t = some chain) :
    move_on_board g.grid t = some EMPTY ∧ chain ≠ [] ∧
    (∀ c ∈ chain, (move_on_board g.grid c).isSome = true ∧
      move_on_board g.grid c ≠ some EMPTY ∧ move_on_board g.grid c ≠ some g.player.name) ∧
    (g.opponent.pieces.Nodup → chain.Nodup) := by
  have hbr := lookupA_buildRes (possible_moves g.player g.opponent g.grid) t
  rw [show g.possible_moves_uncached =
      (possible_moves g.player g.opponent g.grid).foldl insertEntry [] from rfl, hbr] at h
  set f := (possible_moves g.player g.opponent g.grid).filter fun e => decide (e.1 = t) with hf
  by_cases hemp : f.isEmpty = true
  · rw [if_pos hemp] at h
    cases h
  · rw [if_neg hemp] at h
    injection h with hchain
    have hfne : f ≠ [] := fun hc => hemp (by rw [hc]; rfl)
    have hentry : ∀ x ∈ f, x.1 = t ∧ ∃ piece ∈ g.opponent.pieces,
        (t.1 = piece.1 - 1 ∨ t.1 = piece.1 ∨ t.1 = piece.1 + 1) ∧
        (t.2 = piece.2 - 1 ∨ t.2 = piece.2 ∨ t.2 = piece.2 + 1) ∧
        playable g.grid g.player t piece = some x.2 := by
      intro x hx
      rw [hf, List.mem_filter] at hx
      obtain ⟨hxg, hxt⟩ := hx
      have hxt2 : x.1 = t := by simpa using hxt
      unfold possible_moves at hxg
      rw [List.mem_flatMap] at hxg
      obtain ⟨piece, hpmem, hwalk⟩ := hxg
      rw [mem_walk_iff] at hwalk
      obtain ⟨h1, h2, h3⟩ := hwalk
      rw [hxt2] at h1 h2 h3
      exact ⟨hxt2, piece, hpmem, h1, h2, h3⟩
    obtain ⟨x0, hx0⟩ := List.exists_mem_of_ne_nil f hfne
    obtain ⟨hx0t, piece0, hp0, hi0, hj0, hpl0⟩ := hentry x0 hx0
    have hspec0 := playable_spec _ _ _ _ _ hpl0
    refine ⟨hspec0.2.1, ?_, ?_, ?_⟩
    · obtain ⟨c, hc⟩ := List.exists_mem_of_ne_nil x0.2 hspec0.2.2.1
      have hcf : c ∈ f.flatMap Prod.snd := List.mem_flatMap.mpr ⟨x0, hx0, hc⟩
      rw [hchain] at hcf
      exact List.ne_nil_of_mem hcf
    · intro c hcmem
      rw [← hchain, List.mem_flatMap] at hcmem
      obtain ⟨x, hxf, hcx⟩ := hcmem
      obtain ⟨hxt, piece, hpmem, hi, hj, hpl⟩ := hentry x hxf
      have hspec := playable_spec _ _ _ _ _ hpl
      have hsc := hspec.2.2.2
      obtain ⟨i, hi2⟩ := List.get_of_mem hcx
      have hg := scanSpecB_get g.player g.grid _ x.2 t hsc i
      rw [hi2] at hg
      exact ⟨hg.2.1, hg.2.2.1, hg.2.2.2⟩
    · intro hndp
      rw [← hchain]
      have hfsplit : f = g.opponent.pieces.flatMap
          (fun p => (walk g.player p g.grid).filter fun e => decide (e.1 = t)) := by
        rw [hf]
        unfold possible_moves
        rw [List.filter_flatMap]
      rw [hfsplit, List.flatMap_assoc]
      rw [List.nodup_flatMap]
      constructor
      · intro p hp
        rcases filter_key_single (walk g.player p g.grid) t (walk_keys_nodup _ _ _) with
          hnil | ⟨ch, hfil, hmem⟩
        · rw [hnil]
          exact List.nodup_nil
        · rw [hfil]
          have hsingle : (([((t, ch) : Coord × Chain)]).flatMap Prod.snd) = ch := by simp
          rw [hsingle]
          rw [mem_walk_iff] at hmem
          apply scanSpecB_nodup g.player g.grid _ t ch ?_ (playable_spec _ _ _ _ _ hmem.2.2).2.2.2
          intro hc
          apply (playable_spec _ _ _ _ _ hmem.2.2).1
          obtain ⟨t1, t2⟩ := t
          obtain ⟨p1, p2⟩ := p
          rw [Prod.mk.injEq] at hc ⊢
          simp only at hc
          omega
      · have hgen : ∀ p q : Coord, p ≠ q → List.Disjoint
            (((walk g.player p g.grid).filter fun e => decide (e.1 = t)).flatMap Prod.snd)
            (((walk g.player q g.grid).filter fun e => decide (e.1 = t)).flatMap Prod.snd) := by
          intro p q hpq a hap haq
          rw [List.mem_flatMap] at hap haq
          obtain ⟨xp, hxpf, hcp⟩ := hap
          obtain ⟨xq, hxqf, hcq⟩ := haq
          rw [List.mem_filter] at hxpf hxqf
          have hxpt : xp.1 = t := by simpa using hxpf.2
          have hxqt : xq.1 = t := by simpa using hxqf.2
          have hwp := (mem_walk_iff _ _ _ _).mp hxpf.1
          have hwq := (mem_walk_iff _ _ _ _).mp hxqf.1
          rw [hxpt] at hwp
          rw [hxqt] at hwq
          have hsp := playable_spec _ _ _ _ _ hwp.2.2
          have hsq := playable_spec _ _ _ _ _ hwq.2.2
          obtain ⟨i, hgi⟩ := List.get_of_mem hcp
          obtain ⟨j, hgj⟩ := List.get_of_mem hcq
          have hpi := (scanSpecB_get g.player g.grid _ xp.2 t hsp.2.2.2 i).1
          have hqj := (scanSpecB_get g.player g.grid _ xq.2 t hsq.2.2.2 j).1
          rw [hgi] at hpi
          rw [hgj] at hqj
          have hco := hpi.symm.trans hqj
          rw [Prod.mk.injEq] at hco
          dsimp only at hco
          have hm1 : (((i : Nat) : Int) + 1) * (p.1 - t.1) = (((j : Nat) : Int) + 1) * (q.1 - t.1) := by
            have := hco.1
            linarith
          have hm2 : (((i : Nat) : Int) + 1) * (p.2 - t.2) = (((j : Nat) : Int) + 1) * (q.2 - t.2) := by
            have := hco.2
            linarith
          have hd1 : p.1 - t.1 = -1 ∨ p.1 - t.1 = 0 ∨ p.1 - t.1 = 1 := by
            rcases hwp.1 with hh | hh | hh <;> omega
          have hd2 : p.2 - t.2 = -1 ∨ p.2 - t.2 = 0 ∨ p.2 - t.2 = 1 := by
            rcases hwp.2.1 with hh | hh | hh <;> omega
          have he1 : q.1 - t.1 = -1 ∨ q.1 - t.1 = 0 ∨ q.1 - t.1 = 1 := by
            rcases hwq.1 with hh | hh | hh <;> omega
          have he2 : q.2 - t.2 = -1 ∨ q.2 - t.2 = 0 ∨ q.2 - t.2 = 1 := by
            rcases hwq.2.1 with hh | hh | hh <;> omega
          have heq := unit_ray_eq (p.1 - t.1, p.2 - t.2) (q.1 - t.1, q.2 - t.2)
            hd1 hd2 he1 he2 i j hm1 hm2
          rw [Prod.mk.injEq] at heq
          apply hpq
          obtain ⟨p1, p2⟩ := p
          obtain ⟨q1, q2⟩ := q
          rw [Prod.mk.injEq]
          simp only at heq
          omega
        exact hndp.imp fun hne => hgen _ _ hne

/-- C7: every target coordinate present in the legal-move map is an on-board
square whose current owner is EMPTY (occupied squares are never keys), and its
merged capture chain is non-empty and contains no duplicate coordinates. -/
theorem C7_legal_targets (g : Game) (hnd : g.opponent.pieces.Nodup) :
    ∀ kv ∈ g.possible_moves_uncached,
      move_on_board g.grid kv.1 = some EMPTY ∧ kv.2 ≠ [] ∧ kv.2.Nodup := by
  intro kv hkv
  have hlk : lookupA g.possible_moves_uncached kv.1 = some kv.2 :=
    lookupA_of_mem _ kv (buildRes_keys_nodup (possible_moves g.player g.opponent g.grid)) hkv
  have hm := merged_chain_spec g kv.1 kv.2 hlk
  exact ⟨hm.1, hm.2.1, hm.2.2.2 hnd⟩

theorem C7_witness :
    Game.init.opponent.pieces.Nodup ∧
    (move_on_board Game.init.grid (2, 3) = some EMPTY ∧
      ([((3, 3) : Coord)] : Chain) ≠ [] ∧ ([((3, 3) : Coord)] : Chain).Nodup) :=
  ⟨by decide, C7_legal_targets Game.init (by decide) ((2, 3), [(3, 3)]) (by decide)⟩

theorem move_on_board_natCast (g : Grid) (x y : Nat) :
    move_on_board g ((x : Int), (y : Int)) =
      match g.grid[x]? with
      | none => none
      | some row => row[y]? := by
  unfold move_on_board
  rw [if_neg (by omega)]
  simp only [Int.toNat_natCast]

theorem consistent_iff (g : Game) : g.consistentB = true ↔ ConsistentP g := by
  unfold Game.consistentB ConsistentP
  simp only [Bool.and_eq_true, decide_eq_true_eq, List.all_eq_true, List.mem_range, and_assoc]
  constructor
  · rintro ⟨h1, h2, h3, h4, h5, h6, h7, h8, h9⟩
    refine ⟨h1, h2, h3, h4, h5, h6, h7, h8, ?_⟩
    intro c v hcv
    obtain ⟨a, b⟩ := c
    obtain ⟨ha0, halen, hb0, row, hrow, hblen⟩ :=
      cell_isSome_bounds g.grid a b (by rw [hcv]; rfl)
    have hx : a.toNat < g.grid.grid.length := by omega
    have hrowD : g.grid.grid.getD a.toNat [] = row := by
      rw [List.getD_eq_getElem?_getD, hrow]
      rfl
    have hy : b.toNat < (g.grid.grid.getD a.toNat []).length := by
      rw [hrowD]
      omega
    have h10 := h9 a.toNat hx b.toNat hy
    have hmv : row[(b : Int).toNat]? = some v := by
      have h0 := hcv
      unfold move_on_board at h0
      rw [if_neg (by omega)] at h0
      rw [hrow] at h0
      exact h0
    have hval : (g.grid.grid.getD a.toNat []).getD b.toNat EMPTY = v := by
      rw [hrowD, List.getD_eq_getElem?_getD, hmv]
      rfl
    rw [hval] at h10
    have hcoords : (((a.toNat : Nat) : Int), ((b.toNat : Nat) : Int)) = ((a, b) : Coord) := by
      rw [Prod.mk.injEq]
      constructor
      · omega
      · omega
    rw [hcoords] at h10
    exact h10
  · rintro ⟨h1, h2, h3, h4, h5, h6, h7, h8, h9⟩
    refine ⟨h1, h2, h3, h4, h5, h6, h7, h8, ?_⟩
    intro x hx y hy
    rcases hrow : g.grid.grid[x]? with _ | row
    · rw [List.getElem?_eq_none_iff] at hrow
      omega
    · have hrowD : g.grid.grid.getD x [] = row := by
        rw [List.getD_eq_getElem?_getD, hrow]
        rfl
      rw [hrowD] at hy ⊢
      have hv : row[y]? = some row[y] := List.getElem?_eq_getElem hy
      have hmv : move_on_board g.grid ((x : Int), (y : Int)) = some row[y] := by
        rw [move_on_board_natCast, hrow]
        exact hv
      have hvald : row.getD y EMPTY = row[y] := by
        rw [List.getD_eq_getElem?_getD, hv]
        rfl
      rw [hvald]
      exact h9 ((x : Int), (y : Int)) row[y] hmv

theorem countP_set_aux {α : Type} (p : α → Bool) :
    ∀ (l : List α) (i : Nat) (a : α) (h : i < l.length),
      (l.set i a).countP p + (if p (l.get ⟨i, h⟩) then 1 else 0) =
        l.countP p + (if p a then 1 else 0) := by
  intro l
  induction l with
  | nil =>
    intro i a h
    simp at h
  | cons b rest ih =>
    intro i a h
    cases i with
    | zero =>
      simp only [List.set_cons_zero, List.countP_cons, List.get]
      omega
    | succ i2 =>
      have h2 : i2 < rest.length := by
        simp only [List.length_cons] at h
        omega
      have := ih i2 a h2
      simp only [List.set_cons_succ, List.countP_cons, List.get]
      omega

theorem sum_map_set {α : Type} (f : α → Nat) :
    ∀ (l : List α) (i : Nat) (a : α) (h : i < l.length),
      ((l.set i a).map f).sum + f (l.get ⟨i, h⟩) =
        (l.map f).sum + f a := by
  intro l
  induction l with
  | nil =>
    intro i a h
    simp at h
  | cons b rest ih =>
    intro i a h
    cases i with
    | zero =>
      simp only [List.set_cons_zero, List.map_cons, List.sum_cons, List.get]
      omega
    | succ i2 =>
      have h2 : i2 < rest.length := by
        simp only [List.length_cons] at h
        omega
      have := ih i2 a h2
      simp only [List.set_cons_succ, List.map_cons, List.sum_cons, List.get]
      omega

theorem grid_countP_add (g : Grid) (n : String) (p : Coord) (v : String) (pred : String → Bool)
    (hv : move_on_board g p = some v) :
    ((g.add n p).grid.map fun row => row.countP pred).sum + (if pred v then 1 else 0) =
      (g.grid.map fun row => row.countP pred).sum + (if pred n then 1 else 0) := by
  obtain ⟨pa, pb⟩ := p
  obtain ⟨ha0, halen, hb0, row, hrow, hblen⟩ := cell_isSome_bounds g pa pb (by rw [hv]; rfl)
  have hx : pa.toNat < g.grid.length := by omega
  have hy : pb.toNat < row.length := by omega
  have hadd : (g.add n (pa, pb)).grid = g.grid.set pa.toNat (row.set pb.toNat n) := by
    unfold Grid.add
    rw [if_neg (by omega), hrow]
  have hgetrow : g.grid.get ⟨pa.toNat, hx⟩ = row := by
    have := List.getElem?_eq_getElem hx
    rw [hrow] at this
    injection this with h2
    exact h2.symm
  have hcell : row.get ⟨pb.toNat, hy⟩ = v := by
    have hmv : row[(pb : Int).toNat]? = some v := by
      have h0 := hv
      unfold move_on_board at h0
      rw [if_neg (by omega), hrow] at h0
      exact h0
    have := List.getElem?_eq_getElem hy
    rw [hmv] at this
    injection this with h2
    exact h2.symm
  have hsum := sum_map_set (fun row => row.countP pred) g.grid pa.toNat
    (row.set pb.toNat n) hx
  have hcnt := countP_set_aux pred row pb.toNat n hy
  rw [hadd]
  rw [hgetrow] at hsum
  rw [hcell] at hcnt
  by_cases hpv : pred v = true <;> by_cases hpn : pred n = true <;>
    simp only [hpv, hpn, if_true, if_false, Bool.not_eq_true] at hcnt ⊢ <;>
    omega

theorem rectB_preserved (g1 g2 : Grid) (hs : g2.shape = g1.shape)
    (hlen : g2.grid.length = g1.grid.length)
    (hrows : ∀ i : Nat, (g2.grid[i]?.map List.length) = (g1.grid[i]?.map List.length))
    (hr : g1.rectB = true) : g2.rectB = true := by
  obtain ⟨h1, h2⟩ := rectB_spec g1 hr
  unfold Grid.rectB
  rw [Bool.and_eq_true, beq_iff_eq, List.all_eq_true]
  refine ⟨by rw [hs, hlen, h1], ?_⟩
  intro row hrow
  rw [beq_iff_eq, hs]
  obtain ⟨i, hi⟩ := List.get_of_mem hrow
  have hi2 : g2.grid[(i : Nat)]? = some row := by
    rw [List.getElem?_eq_getElem i.isLt]
    rw [← hi]
    rfl
  have := hrows i
  rw [hi2] at this
  rcases h1r : g1.grid[(i : Nat)]? with _ | row1
  · rw [h1r] at this
    cases this
  · rw [h1r] at this
    simp only [Option.map] at this
    injection this with hlength
    rw [hlength]
    exact h2 row1 (List.getElem?_mem h1r)

theorem capture_step (g : Game) (c0 : Coord) (rest : Chain)
    (hc0opp : c0 ∈ g.opponent.pieces) (hc0pl : c0 ∉ g.player.pieces) :
    Game.capture g (c0 :: rest) =
      Game.capture { g with
        player := { g.player with pieces := g.player.pieces ++ [c0] },
        opponent := { g.opponent with pieces := g.opponent.pieces.erase c0 },
        grid := g.grid.add g.player.name c0 } rest := by
  show (match (Game.add g c0).opponent.remove c0 with
        | none => Except.error (Game.add g c0)
        | some opp => Game.capture { Game.add g c0 with opponent := opp } rest) = _
  have hrem : (Game.add g c0).opponent.remove c0 =
      some { g.opponent with pieces := g.opponent.pieces.erase c0 } := by
    show g.opponent.remove c0 = _
    unfold Player.remove
    rw [if_pos hc0opp]
  rw [hrem]
  have hpadd : g.player.add c0 = { g.player with pieces := g.player.pieces ++ [c0] } := by
    unfold Player.add
    rw [if_neg hc0pl]
  show Game.capture { g with
      player := g.player.add c0,
      grid := g.grid.add g.player.name c0,
      opponent := { g.opponent with pieces := g.opponent.pieces.erase c0 } } rest = _
  rw [hpadd]

theorem capture_spec :
    ∀ (chain : Chain) (g : Game),
      chain.Nodup →
      (∀ c ∈ chain, c ∈ g.opponent.pieces) →
      (∀ c ∈ chain, c ∉ g.player.pieces) →
      (∀ c ∈ chain, ∃ v, move_on_board g.grid c = some v ∧ v ≠ EMPTY) →
      g.player.pieces.Nodup → g.opponent.pieces.Nodup →
      g.player.name ≠ EMPTY →
      ∃ g2, Game.capture g chain = Except.ok g2 ∧
        g2.player.name = g.player.name ∧
        g2.opponent.name = g.opponent.name ∧
        g2.player.skip = g.player.skip ∧
        g2.opponent.skip = g.opponent.skip ∧
        g2.cache = g.cache ∧
        g2.player.pieces.length = g.player.pieces.length + chain.length ∧
        g2.opponent.pieces.length + chain.length = g.opponent.pieces.length ∧
        g2.player.pieces.Nodup ∧
        g2.opponent.pieces.Nodup ∧
        (∀ c, c ∈ g2.player.pieces ↔ c ∈ g.player.pieces ∨ c ∈ chain) ∧
        (∀ c, c ∈ g2.opponent.pieces ↔ c ∈ g.opponent.pieces ∧ c ∉ chain) ∧
        (∀ c, move_on_board g2.grid c =
          if c ∈ chain ∧ (move_on_board g.grid c).isSome = true then some g.player.name
          else move_on_board g.grid c) ∧
        g2.grid.shape = g.grid.shape ∧
        g2.grid.grid.length = g.grid.grid.length ∧
        (∀ i : Nat, (g2.grid.grid[i]?.map List.length) = (g.grid.grid[i]?.map List.length)) ∧
        g2.grid.occupiedCount = g.grid.occupiedCount ∧
        g2.grid.emptyCount = g.grid.emptyCount := by
  intro chain
  induction chain with
  | nil =>
    intro g _ _ _ _ hp ho hn
    refine ⟨g, rfl, rfl, rfl, rfl, rfl, rfl, by simp, by simp, hp, ho,
      fun c => by simp, fun c => by simp, fun c => by simp, rfl, rfl, fun i => rfl, rfl, rfl⟩
  | cons c0 rest ih =>
    intro g hnd hsub hdis hcells hp ho hn
    rw [List.nodup_cons] at hnd
    obtain ⟨hc0rest, hndrest⟩ := hnd
    have hc0opp : c0 ∈ g.opponent.pieces := hsub c0 (List.mem_cons_self ..)
    have hc0pl : c0 ∉ g.player.pieces := hdis c0 (List.mem_cons_self ..)
    obtain ⟨v0, hv0, hv0ne⟩ := hcells c0 (List.mem_cons_self ..)
    set G1 : Game := { g with
      player := { g.player with pieces := g.player.pieces ++ [c0] },
      opponent := { g.opponent with pieces := g.opponent.pieces.erase c0 },
      grid := g.grid.add g.player.name c0 } with hG1
    have hstep := capture_step g c0 rest hc0opp hc0pl
    have hv0S : (move_on_board g.grid c0).isSome = true := by
      rw [hv0]
      rfl
    have hG1cell : ∀ c : Coord, move_on_board G1.grid c =
        if c = c0 ∧ (move_on_board g.grid c0).isSome = true then some g.player.name
        else move_on_board g.grid c := by
      intro c
      rw [hG1]
      exact move_on_board_add g.grid g.player.name c0 c
    have hG1some : ∀ c : Coord, (move_on_board G1.grid c).isSome = (move_on_board g.grid c).isSome := by
      intro c
      rw [hG1]
      exact isSome_move_on_board_add g.grid g.player.name c0 c
    have hih := ih G1 hndrest ?_ ?_ ?_ ?_ ?_ ?_
    · obtain ⟨g2, hcap, hn1, hn2, hs1, hs2, hc1, hl1, hl2, hnd1, hnd2, hm1, hm2, hcell, hsh, hlen, hrows, hocc, hemp⟩ := hih
      refine ⟨g2, by rw [hstep]; exact hcap, hn1, hn2, hs1, hs2, hc1, ?_, ?_, hnd1, hnd2, ?_, ?_, ?_, ?_, ?_, ?_, ?_, ?_⟩
      · rw [hl1]
        have hG1p : G1.player.pieces = g.player.pieces ++ [c0] := rfl
        rw [hG1p]
        simp only [List.length_append, List.length_singleton, List.length_cons, List.length_nil]
        omega
      · have hG1o : G1.opponent.pieces = g.opponent.pieces.erase c0 := rfl
        have he : (g.opponent.pieces.erase c0).length + 1 = g.opponent.pieces.length := by
          have h1 := List.length_erase_of_mem hc0opp
          have hpos : 0 < g.opponent.pieces.length := List.length_pos_of_mem hc0opp
          omega
        rw [hG1o] at hl2
        simp only [List.length_cons, List.length_nil]
        omega
      · intro c
        rw [hm1 c]
        have hG1p : G1.player.pieces = g.player.pieces ++ [c0] := rfl
        rw [hG1p, List.mem_append, List.mem_singleton, List.mem_cons]
        tauto
      · intro c
        rw [hm2 c]
        have hG1o : G1.opponent.pieces = g.opponent.pieces.erase c0 := rfl
        rw [hG1o, ho.mem_erase_iff, List.mem_cons]
        constructor
        · rintro ⟨⟨hne, hmem⟩, hnr⟩
          refine ⟨hmem, ?_⟩
          rintro (rfl | hr)
          · exact hne rfl
          · exact hnr hr
        · rintro ⟨hmem, hnc⟩
          exact ⟨⟨fun hc => hnc (Or.inl hc), hmem⟩, fun hr => hnc (Or.inr hr)⟩
      · intro c
        rw [hcell c, hG1some c, hG1cell c]
        by_cases hs : (move_on_board g.grid c).isSome = true
        · by_cases hcr : c ∈ rest
          · rw [if_pos ⟨hcr, hs⟩, if_pos ⟨List.mem_cons_of_mem _ hcr, hs⟩]
          · rw [if_neg (by rintro ⟨h1, -⟩; exact hcr h1)]
            by_cases hcc : c = c0
            · rw [if_pos ⟨hcc, by rw [← hcc]; exact hs⟩,
                if_pos ⟨by rw [hcc]; exact List.mem_cons_self .., hs⟩]
            · rw [if_neg (by rintro ⟨h1, -⟩; exact hcc h1), if_neg]
              rintro ⟨h1, -⟩
              rcases List.mem_cons.mp h1 with rfl | h1
              · exact hcc rfl
              · exact hcr h1
        · rw [if_neg (by rintro ⟨-, h2⟩; exact hs h2),
            if_neg (by rintro ⟨h1, h2⟩; exact hs (by rw [h1]; exact h2)),
            if_neg (by rintro ⟨-, h2⟩; exact hs h2)]
      · rw [hsh]
        exact grid_add_shape g.grid g.player.name c0
      · rw [hlen]
        exact grid_add_length g.grid g.player.name c0
      · intro i
        rw [hrows i]
        exact grid_add_row_length g.grid g.player.name c0 i
      · rw [hocc]
        show (g.grid.add g.player.name c0).occupiedCount = g.grid.occupiedCount
        unfold Grid.occupiedCount
        have hcadd := grid_countP_add g.grid g.player.name c0 v0
          (fun c => decide (c ≠ EMPTY)) hv0
        have h1 : ((fun c => decide (c ≠ EMPTY)) v0) = true := by
          simp [hv0ne]
        have h2 : ((fun c => decide (c ≠ EMPTY)) g.player.name) = true := by
          simp [hn]
        rw [h1, h2] at hcadd
        have h3 : (if (true : Bool) = true then 1 else 0) = 1 := rfl
        rw [h3] at hcadd
        omega
      · rw [hemp]
        show (g.grid.add g.player.name c0).emptyCount = g.grid.emptyCount
        unfold Grid.emptyCount
        have hcadd := grid_countP_add g.grid g.player.name c0 v0
          (fun c => decide (c = EMPTY)) hv0
        have h1 : ((fun c => decide (c = EMPTY)) v0) = false := by
          simp [hv0ne]
        have h2 : ((fun c => decide (c = EMPTY)) g.player.name) = false := by
          simp [hn]
        rw [h1, h2] at hcadd
        have h3 : (if (false : Bool) = true then 1 else 0) = 0 := rfl
        rw [h3] at hcadd
        omega
    · intro c hc
      have hne : c ≠ c0 := fun hcc => hc0rest (hcc ▸ hc)
      exact (List.mem_erase_of_ne hne).mpr (hsub c (List.mem_cons_of_mem _ hc))
    · intro c hc
      show c ∉ g.player.pieces ++ [c0]
      rw [List.mem_append, List.mem_singleton]
      rintro (h | rfl)
      · exact hdis c (List.mem_cons_of_mem _ hc) h
      · exact hc0rest hc
    · intro c hc
      obtain ⟨v, hv, hvne⟩ := hcells c (List.mem_cons_of_mem _ hc)
      refine ⟨v, ?_, hvne⟩
      rw [hG1cell c, if_neg]
      · exact hv
      · rintro ⟨rfl, -⟩
        exact hc0rest hc
    · show (g.player.pieces ++ [c0]).Nodup
      rw [List.nodup_append]
      exact ⟨hp, List.nodup_singleton _,
        fun a ha hb => hc0pl ((List.mem_singleton.mp hb) ▸ ha)⟩
    · exact ho.erase c0
    · exact hn

theorem possible_moves_fresh (g : Game) (h : g.cacheFresh = true) :
    g.possible_moves =
      (g.possible_moves_uncached, { g with cache := some g.possible_moves_uncached }) := by
  obtain ⟨pl, op, gr, ca⟩ := g
  unfold Game.cacheFresh at h
  rcases ca with _ | m
  · rfl
  · simp only [decide_eq_true_eq] at h
    have hstep : Game.possible_moves ⟨pl, op, gr, some m⟩ = (m, ⟨pl, op, gr, some m⟩) := rfl
    rw [hstep, Prod.mk.injEq]
    constructor
    · exact h
    · show (⟨pl, op, gr, some m⟩ : Game) = ⟨pl, op, gr, some (Game.possible_moves_uncached ⟨pl, op, gr, some m⟩)⟩
      rw [← h]

theorem play_unfold (g : Game) (m : Coord) (hcf : g.cacheFresh = true) :
    g.play m =
      (match lookupA g.possible_moves_uncached m with
       | none => Except.error (({ g with cache := some g.possible_moves_uncached } : Game).add m)
       | some ch =>
         match (({ g with cache := some g.possible_moves_uncached } : Game).add m).capture ch with
         | Except.error e => Except.error e
         | Except.ok g2 => Except.ok (g2.cache_clear.next_player false)) := by
  unfold Game.play
  rw [possible_moves_fresh g hcf]

theorem play_spec (g : Game) (m : Coord) (chain : Chain)
    (hcon : ConsistentP g) (hcf : g.cacheFresh = true)
    (hlk : lookupA g.possible_moves_uncached m = some chain) :
    ∃ g2, g.play m = Except.ok g2 ∧
      g2.player.name = g.opponent.name ∧
      g2.opponent.name = g.player.name ∧
      g2.player.skip = g.opponent.skip ∧
      g2.opponent.skip = false ∧
      g2.cache = none ∧
      g2.opponent.pieces.length = g.player.pieces.length + 1 + chain.length ∧
      g2.player.pieces.length + chain.length = g.opponent.pieces.length ∧
      (∀ c ∈ chain, move_on_board g2.grid c = some g.player.name) ∧
      move_on_board g2.grid m = some g.player.name ∧
      g2.grid.occupiedCount = g.grid.occupiedCount + 1 ∧
      g2.grid.emptyCount + 1 = g.grid.emptyCount ∧
      (∀ c ∈ chain, c ∈ g.opponent.pieces) ∧
      ConsistentP g2 := by
  obtain ⟨hnm, hpne, hone, hpnd, hond, hrect, hsyncP, hsyncO, hcells⟩ := hcon
  obtain ⟨hmEmpty, hchne, hchcells, hchnodup⟩ := merged_chain_spec g m chain hlk
  have hchN : chain.Nodup := hchnodup hond
  have hchopp : ∀ c ∈ chain, c ∈ g.opponent.pieces := by
    intro c hc
    obtain ⟨hS, hnE, hnP⟩ := hchcells c hc
    rcases hv : move_on_board g.grid c with _ | v
    · rw [hv] at hS
      cases hS
    · rcases hcells c v hv with h | ⟨h1, h2⟩ | ⟨h1, h2⟩
      · exact absurd (by rw [hv, h]) hnE
      · exact absurd (by rw [hv, h1]) hnP
      · exact h2
  have hchnp : ∀ c ∈ chain, c ∉ g.player.pieces := by
    intro c hc hmem
    exact (hchcells c hc).2.2 (hsyncP c hmem)
  have hmnp : m ∉ g.player.pieces := by
    intro hmem
    have h2 := hsyncP m hmem
    rw [hmEmpty] at h2
    injection h2 with h3
    exact hpne h3.symm
  have hmno : m ∉ g.opponent.pieces := by
    intro hmem
    have h2 := hsyncO m hmem
    rw [hmEmpty] at h2
    injection h2 with h3
    exact hone h3.symm
  have hmS : (move_on_board g.grid m).isSome = true := by
    rw [hmEmpty]
    rfl
  have hmnc : m ∉ chain := fun hc => (hchcells m hc).2.1 hmEmpty
  set gC : Game := { g with cache := some g.possible_moves_uncached } with hgC
  have haddeq : gC.add m = { gC with
      player := { g.player with pieces := g.player.pieces ++ [m] },
      grid := g.grid.add g.player.name m } := by
    unfold Game.add
    have hpadd : gC.player.add m = { g.player with pieces := g.player.pieces ++ [m] } := by
      show g.player.add m = _
      unfold Player.add
      rw [if_neg hmnp]
    rw [hpadd]
  set G1 : Game := { gC with
      player := { g.player with pieces := g.player.pieces ++ [m] },
      grid := g.grid.add g.player.name m } with hG1
  have hG1cell : ∀ c : Coord, move_on_board G1.grid c =
      if c = m ∧ (move_on_board g.grid m).isSome = true then some g.player.name
      else move_on_board g.grid c :=
    fun c => move_on_board_add g.grid g.player.name m c
  have hG1some : ∀ c : Coord, (move_on_board G1.grid c).isSome = (move_on_board g.grid c).isSome :=
    fun c => isSome_move_on_board_add g.grid g.player.name m c
  obtain ⟨g2, hcap, hn1, hn2, hs1, hs2, hc1, hl1, hl2, hnd1, hnd2, hm1, hm2, hcell, hsh, hlen,
    hrows, hocc, hemp⟩ := capture_spec chain G1 hchN
    (fun c hc => hchopp c hc)
    (by
      intro c hc
      show c ∉ g.player.pieces ++ [m]
      rw [List.mem_append, List.mem_singleton]
      rintro (h | rfl)
      · exact hchnp c hc h
      · exact hmnc hc)
    (by
      intro c hc
      obtain ⟨hS, hnE, hnP⟩ := hchcells c hc
      rcases hv : move_on_board g.grid c with _ | v
      · rw [hv] at hS
        cases hS
      · refine ⟨v, ?_, ?_⟩
        · rw [hG1cell c, if_neg, hv]
          rintro ⟨rfl, -⟩
          exact hmnc hc
        · intro hc2
          rw [hv, hc2] at hnE
          exact hnE rfl)
    (by
      show (g.player.pieces ++ [m]).Nodup
      rw [List.nodup_append]
      exact ⟨hpnd, List.nodup_singleton _,
        fun a ha hb => hmnp ((List.mem_singleton.mp hb) ▸ ha)⟩)
    hond hpne
  refine ⟨g2.cache_clear.next_player false, ?_, ?_, ?_, ?_, ?_, ?_, ?_, ?_, ?_, ?_, ?_, ?_, ?_, ?_⟩
  · rw [play_unfold g m hcf, hlk]
    show (match (({ g with cache := some g.possible_moves_uncached } : Game).add m).capture chain with
         | Except.error e => Except.error e
         | Except.ok g3 => Except.ok (g3.cache_clear.next_player false)) = _
    have hcapeq : (({ g with cache := some g.possible_moves_uncached } : Game).add m).capture chain =
        Except.ok g2 := by
      show (gC.add m).capture chain = Except.ok g2
      rw [haddeq]
      exact hcap
    rw [hcapeq]
  · show g2.opponent.name = g.opponent.name
    rw [hn2]
  · show g2.player.name = g.player.name
    rw [hn1]
  · show g2.opponent.skip = g.opponent.skip
    rw [hs2]
  · rfl
  · rfl
  · show g2.player.pieces.length = _
    rw [hl1]
    show (g.player.pieces ++ [m]).length + chain.length = _
    simp only [List.length_append, List.length_singleton]
  · show g2.opponent.pieces.length + chain.length = _
    exact hl2
  · intro c hc
    show move_on_board g2.grid c = _
    rw [hcell c, if_pos ⟨hc, by rw [hG1some c]; exact (hchcells c hc).1⟩]
  · show move_on_board g2.grid m = _
    rw [hcell m, if_neg (by rintro ⟨h1, -⟩; exact hmnc h1), hG1cell m, if_pos ⟨rfl, hmS⟩]
  · show g2.grid.occupiedCount = _
    rw [hocc]
    show (g.grid.add g.player.name m).occupiedCount = _
    unfold Grid.occupiedCount
    have hcadd := grid_countP_add g.grid g.player.name m EMPTY
      (fun c => decide (c ≠ EMPTY)) hmEmpty
    have h1 : ((fun c => decide (c ≠ EMPTY)) EMPTY) = false := by
      simp
    have h2 : ((fun c => decide (c ≠ EMPTY)) g.player.name) = true := by
      simp [hpne]
    rw [h1, h2] at hcadd
    have h3 : (if (true : Bool) = true then 1 else 0) = 1 := rfl
    have h4 : (if (false : Bool) = true then 1 else 0) = 0 := rfl
    rw [h3, h4] at hcadd
    omega
  · show g2.grid.emptyCount + 1 = _
    rw [hemp]
    show (g.grid.add g.player.name m).emptyCount + 1 = _
    unfold Grid.emptyCount
    have hcadd := grid_countP_add g.grid g.player.name m EMPTY
      (fun c => decide (c = EMPTY)) hmEmpty
    have h1 : ((fun c => decide (c = EMPTY)) EMPTY) = true := by
      simp
    have h2 : ((fun c => decide (c = EMPTY)) g.player.name) = false := by
      simp [hpne]
    rw [h1, h2] at hcadd
    have h3 : (if (true : Bool) = true then 1 else 0) = 1 := rfl
    have h4 : (if (false : Bool) = true then 1 else 0) = 0 := rfl
    rw [h3, h4] at hcadd
    omega
  · exact hchopp
  · -- consistency of the final state
    refine ⟨?_, ?_, ?_, ?_, ?_, ?_, ?_, ?_, ?_⟩
    · show g2.opponent.name ≠ g2.player.name
      rw [hn1, hn2]
      show g.opponent.name ≠ g.player.name
      exact fun hc => hnm hc.symm
    · show g2.opponent.name ≠ EMPTY
      rw [hn2]
      exact hone
    · show g2.player.name ≠ EMPTY
      rw [hn1]
      exact hpne
    · exact hnd2
    · exact hnd1
    · show g2.grid.rectB = true
      apply rectB_preserved g.grid g2.grid
      · rw [hsh]
        exact grid_add_shape g.grid g.player.name m
      · rw [hlen]
        exact grid_add_length g.grid g.player.name m
      · intro i
        rw [hrows i]
        exact grid_add_row_length g.grid g.player.name m i
      · exact hrect
    · -- new mover (old opponent minus chain) sync
      intro c hc
      have hc2 := (hm2 c).mp hc
      obtain ⟨hcopp, hcnc⟩ := hc2
      have hcopp2 : c ∈ g.opponent.pieces := hcopp
      have hcneqm : c ≠ m := fun hcc => hmno (hcc ▸ hcopp2)
      show move_on_board g2.grid c = some g2.opponent.name
      rw [hcell c, if_neg (by rintro ⟨h1, -⟩; exact hcnc h1), hG1cell c,
        if_neg (by rintro ⟨h1, -⟩; exact hcneqm h1), hn2]
      show move_on_board g.grid c = some g.opponent.name
      exact hsyncO c hcopp2
    · -- new opponent (old mover plus m plus chain) sync
      intro c hc
      have hc2 := (hm1 c).mp hc
      show move_on_board g2.grid c = some g2.player.name
      rw [hn1]
      show move_on_board g2.grid c = some g.player.name
      rcases hc2 with hcp | hcc
      · have hcp2 : c ∈ g.player.pieces ++ [m] := hcp
        rw [List.mem_append, List.mem_singleton] at hcp2
        rcases hcp2 with hcp2 | rfl
        · have hcnc : c ∉ chain := fun h => hchnp c h hcp2
          have hcneqm : c ≠ m := fun hcc2 => hmnp (hcc2 ▸ hcp2)
          rw [hcell c, if_neg (by rintro ⟨h1, -⟩; exact hcnc h1), hG1cell c,
            if_neg (by rintro ⟨h1, -⟩; exact hcneqm h1)]
          exact hsyncP c hcp2
        · rw [hcell c, if_neg (by rintro ⟨h1, -⟩; exact hmnc h1), hG1cell c,
            if_pos ⟨rfl, hmS⟩]
      · rw [hcell c, if_pos ⟨hcc, by rw [hG1some c]; exact (hchcells c hcc).1⟩]
    · -- cells invariant
      intro c v hv
      have hv2 : move_on_board g2.grid c = some v := hv
      rw [hcell c] at hv2
      by_cases hcc : c ∈ chain ∧ (move_on_board G1.grid c).isSome = true
      · rw [if_pos hcc] at hv2
        injection hv2 with hv3
        right
        right
        constructor
        · show v = g2.player.name
          rw [hn1, ← hv3]
        · show c ∈ g2.player.pieces
          exact (hm1 c).mpr (Or.inr hcc.1)
      · rw [if_neg hcc, hG1cell c] at hv2
        by_cases hcm : c = m ∧ (move_on_board g.grid m).isSome = true
        · rw [if_pos hcm] at hv2
          injection hv2 with hv3
          right
          right
          constructor
          · show v = g2.player.name
            rw [hn1, ← hv3]
          · show c ∈ g2.player.pieces
            refine (hm1 c).mpr (Or.inl ?_)
            show c ∈ g.player.pieces ++ [m]
            rw [List.mem_append, List.mem_singleton]
            exact Or.inr hcm.1
        · rw [if_neg hcm] at hv2
          have hcnc : c ∉ chain := by
            intro h
            apply hcc
            refine ⟨h, ?_⟩
            rw [hG1some c]
            exact (hchcells c h).1
          rcases hcells c v hv2 with h | ⟨h1, h2⟩ | ⟨h1, h2⟩
          · exact Or.inl h
          · right
            right
            constructor
            · show v = g2.player.name
              rw [hn1]
              exact h1
            · show c ∈ g2.player.pieces
              refine (hm1 c).mpr (Or.inl ?_)
              show c ∈ g.player.pieces ++ [m]
              rw [List.mem_append]
              exact Or.inl h2
          · right
            left
            constructor
            · show v = g2.opponent.name
              rw [hn2]
              exact h1
            · show c ∈ g2.opponent.pieces
              exact (hm2 c).mpr ⟨h2, hcnc⟩

/-- C4: playing a target taken from the current legal-move map recolors every
coordinate of its capture chain to the mover, increases the mover's piece
count by one plus the chain length, decreases the opponent's count by the
chain length, and increases the number of occupied cells by exactly one.
After play the roles have swapped, so the mover's pieces are found in the
opponent field of the resulting state. -/
theorem C4_capture_correctness (g : Game) (m : Coord) (chain : Chain)
    (hcon : g.consistentB = true) (hcf : g.cacheFresh = true)
    (hm : lookupA g.possible_moves_uncached m = some chain) :
    (g.play m).isOk = true ∧
    (∀ c ∈ chain, move_on_board (resultState (g.play m)).grid c = some g.player.name) ∧
    (resultState (g.play m)).opponent.pieces.length =
      g.player.pieces.length + 1 + chain.length ∧
    (resultState (g.play m)).player.pieces.length + chain.length =
      g.opponent.pieces.length ∧
    (resultState (g.play m)).grid.occupiedCount = g.grid.occupiedCount + 1 := by
  obtain ⟨g2, hok, hn1, hn2, hs1, hs2, hc1, hl1, hl2, hcells, hcellm, hocc, hemp, hchopp, hcon2⟩ :=
    play_spec g m chain ((consistent_iff g).mp hcon) hcf hm
  rw [hok]
  exact ⟨rfl, fun c hc => hcells c hc, hl1, hl2, hocc⟩

theorem C4_witness :
    Game.init.consistentB = true ∧ Game.init.cacheFresh = true ∧
    lookupA Game.init.possible_moves_uncached (2, 3) = some [(3, 3)] ∧
    (Game.init.play (2, 3)).isOk = true ∧
    move_on_board (resultState (Game.init.play (2, 3))).grid (3, 3) =
      some Game.init.player.name ∧
    (resultState (Game.init.play (2, 3))).opponent.pieces.length =
      Game.init.player.pieces.length + 1 + ([((3, 3) : Coord)] : Chain).length ∧
    (resultState (Game.init.play (2, 3))).player.pieces.length +
      ([((3, 3) : Coord)] : Chain).length = Game.init.opponent.pieces.length ∧
    (resultState (Game.init.play (2, 3))).grid.occupiedCount =
      Game.init.grid.occupiedCount + 1 := by
  have h := C4_capture_correctness Game.init (2, 3) [(3, 3)] (by decide) (by decide) (by decide)
  exact ⟨by decide, by decide, by decide, h.1, h.2.1 (3, 3) (by decide), h.2.2.1,
    h.2.2.2.1, h.2.2.2.2⟩

/-- C9: Player.remove is modelled as failing (none, a raised KeyError in the
source) exactly when the coordinate is not in the piece set; and during
Game.play of a target taken from the current legal-move map of a consistent
state, every chain coordinate is owned by the opponent, so the remove calls
all succeed and play returns normally. -/
theorem C9_remove_fails_iff_not_owned (pl : Player) (c : Coord)
    (g : Game) (m : Coord) (chain : Chain)
    (hcon : g.consistentB = true) (hcf : g.cacheFresh = true)
    (hm : lookupA g.possible_moves_uncached m = some chain) :
    (pl.remove c = none ↔ c ∉ pl.pieces) ∧
    (∀ x ∈ chain, x ∈ g.opponent.pieces) ∧
    (g.play m).isOk = true := by
  obtain ⟨g2, hok, hn1, hn2, hs1, hs2, hc1, hl1, hl2, hcells, hcellm, hocc, hemp, hchopp, hcon2⟩ :=
    play_spec g m chain ((consistent_iff g).mp hcon) hcf hm
  refine ⟨?_, hchopp, by rw [hok]; rfl⟩
  unfold Player.remove
  by_cases h : c ∈ pl.pieces
  · rw [if_pos h]
    simp [h]
  · rw [if_neg h]
    simp [h]

theorem C9_witness :
    Game.init.consistentB = true ∧ Game.init.cacheFresh = true ∧
    lookupA Game.init.possible_moves_uncached (2, 3) = some [(3, 3)] ∧
    (bugPlayerB.remove (5, 5) = none ↔ (5, 5) ∉ bugPlayerB.pieces) ∧
    (3, 3) ∈ Game.init.opponent.pieces ∧
    (Game.init.play (2, 3)).isOk = true := by
  have h := C9_remove_fails_iff_not_owned bugPlayerB (5, 5) Game.init (2, 3) [(3, 3)]
    (by decide) (by decide) (by decide)
  exact ⟨by decide, by decide, by decide, h.1, h.2.1 (3, 3) (by decide), h.2.2⟩

theorem uncached_keys_empty (g : Game) :
    ∀ kv ∈ g.possible_moves_uncached, move_on_board g.grid kv.1 = some EMPTY :=
  fun kv hkv =>
    (merged_chain_spec g kv.1 kv.2
      (lookupA_of_mem _ kv
        (buildRes_keys_nodup (possible_moves g.player g.opponent g.grid)) hkv)).1

/-- C1 amended: Game.play itself assumes its argument is a key of the
legal-move map (on a non-key it places the piece and then fails, see the
counterexample); the invalid-move rejection happens in the driver loop, which
checks membership before calling play: on a choice that is not a key of the
current non-empty legal-move map, the loop step returns with the board, both
players' piece sets and both skip flags unchanged (only the memoised cache may
have been filled). -/
theorem C1_amended_invalid_rejected_by_loop (g : Game) (choose : Moves → Coord)
    (hcf : g.cacheFresh = true)
    (hne : (g.possible_moves).1 ≠ [])
    (hinv : lookupA (g.possible_moves).1 (choose (g.possible_moves).1) = none) :
    (main_step choose g).isOk = true ∧
    (resultState (main_step choose g)).grid = g.grid ∧
    (resultState (main_step choose g)).player = g.player ∧
    (resultState (main_step choose g)).opponent = g.opponent := by
  have hpm := possible_moves_fresh g hcf
  rw [hpm] at hne hinv
  have hrt : helper_exit
      (helper_enter ({ g with cache := some g.possible_moves_uncached } : Game)
        g.possible_moves_uncached) g.possible_moves_uncached =
      ({ g with cache := some g.possible_moves_uncached } : Game) :=
    helper_roundtrip _ _ (fun kv hkv => uncached_keys_empty g kv hkv)
  have hstep : main_step choose g =
      Except.ok ({ g with cache := some g.possible_moves_uncached } : Game) := by
    unfold main_step
    rw [hpm]
    dsimp only
    rw [if_neg hne, hrt, if_neg (by rw [hinv]; exact fun hc => Bool.noConfusion hc)]
  rw [hstep]
  exact ⟨rfl, rfl, rfl, rfl⟩

theorem C1_amended_witness :
    Game.init.cacheFresh = true ∧
    (Game.init.possible_moves).1 ≠ [] ∧
    lookupA (Game.init.possible_moves).1 (0, 0) = none ∧
    (main_step (fun _ => (0, 0)) Game.init).isOk = true ∧
    (resultState (main_step (fun _ => (0, 0)) Game.init)).grid = Game.init.grid ∧
    (resultState (main_step (fun _ => (0, 0)) Game.init)).player = Game.init.player ∧
    (resultState (main_step (fun _ => (0, 0)) Game.init)).opponent = Game.init.opponent := by
  have h := C1_amended_invalid_rejected_by_loop Game.init (fun _ => (0, 0))
    (by decide) (by decide) (by decide)
  exact ⟨by decide, by decide, by decide, h.1, h.2.1, h.2.2.1, h.2.2.2⟩

theorem main_step_eq (choose : Moves → Coord) (g : Game) :
    main_step choose g =
      if (g.possible_moves).1 = [] then
        Except.ok ((g.possible_moves).2.next_player true)
      else if (lookupA (g.possible_moves).1 (choose (g.possible_moves).1)).isSome = true then
        (helper_exit (helper_enter (g.possible_moves).2 (g.possible_moves).1)
          (g.possible_moves).1).play (choose (g.possible_moves).1)
      else
        Except.ok (helper_exit (helper_enter (g.possible_moves).2 (g.possible_moves).1)
          (g.possible_moves).1) := rfl

theorem consistentP_of_fields (g1 g2 : Game) (hp : g1.player = g2.player)
    (ho : g1.opponent = g2.opponent) (hg : g1.grid = g2.grid)
    (h : ConsistentP g2) : ConsistentP g1 := by
  unfold ConsistentP at *
  rw [hp, ho, hg]
  exact h

theorem consistentP_next_player (g : Game) (b : Bool) (h : ConsistentP g) :
    ConsistentP (g.next_player b) := by
  obtain ⟨h1, h2, h3, h4, h5, h6, h7, h8, h9⟩ := h
  refine ⟨fun hc => h1 hc.symm, h3, h2, h5, h4, h6, h8, h7, ?_⟩
  intro c v hv
  rcases h9 c v hv with h | ⟨ha, hb⟩ | ⟨ha, hb⟩
  · exact Or.inl h
  · exact Or.inr (Or.inr ⟨ha, hb⟩)
  · exact Or.inr (Or.inl ⟨ha, hb⟩)

theorem possible_moves_snd_fields (g : Game) :
    (g.possible_moves).2.player = g.player ∧ (g.possible_moves).2.opponent = g.opponent ∧
    (g.possible_moves).2.grid = g.grid := by
  obtain ⟨pl, op, gr, ca⟩ := g
  rcases ca with _ | m
  · exact ⟨rfl, rfl, rfl⟩
  · exact ⟨rfl, rfl, rfl⟩

theorem possible_moves_snd_cache (g : Game) :
    (g.possible_moves).2.cache = some (g.possible_moves).1 := by
  obtain ⟨pl, op, gr, ca⟩ := g
  rcases ca with _ | m
  · rfl
  · rfl

theorem flagWeight_le_two (g : Game) : g.flagWeight ≤ 2 := by
  unfold Game.flagWeight
  rcases g.player.skip <;> rcases g.opponent.skip <;> simp

theorem runGame_stopped (choose : Moves → Coord) (n : Nat) (g : Game)
    (h : g.continues = false) : runGame choose n g = Except.ok g := by
  cases n with
  | zero => rfl
  | succ n2 =>
    rw [runGame, if_neg]
    rw [h]
    exact fun hc => Bool.noConfusion hc

theorem main_step_progress (g : Game) (choose : Moves → Coord)
    (hcon : ConsistentP g) (hok : g.cacheOK = true) (hch : ValidChoose choose)
    (hcont : g.continues = true) :
    ∃ g1, main_step choose g = Except.ok g1 ∧ ConsistentP g1 ∧ g1.cacheOK = true ∧
      (g1.continues = false ∨ g1.measureG < g.measureG) := by
  obtain ⟨hsp, hso, hsg⟩ := possible_moves_snd_fields g
  rw [main_step_eq]
  by_cases hemp : (g.possible_moves).1 = []
  · rw [if_pos hemp]
    refine ⟨(g.possible_moves).2.next_player true, rfl, ?_, ?_, ?_⟩
    · apply consistentP_next_player
      exact consistentP_of_fields _ g hsp hso hsg hcon
    · show ((g.possible_moves).2.next_player true).cacheOK = true
      have hc2 : ((g.possible_moves).2.next_player true).cache = some [] := by
        show (g.possible_moves).2.cache = some []
        rw [possible_moves_snd_cache g, hemp]
      unfold Game.cacheOK
      rw [hc2]
      rfl
    · -- the skip either finishes the game or decreases the measure
      have hps : ((g.possible_moves).2.next_player true).player.skip = g.opponent.skip := by
        show (g.possible_moves).2.opponent.skip = g.opponent.skip
        rw [hso]
      have hos : ((g.possible_moves).2.next_player true).opponent.skip = true := rfl
      have hgr : ((g.possible_moves).2.next_player true).grid = g.grid := by
        show (g.possible_moves).2.grid = g.grid
        exact hsg
      rcases hob : g.opponent.skip with _ | _
      · right
        unfold Game.measureG Game.flagWeight
        rw [hgr, hps, hos, hob]
        unfold Game.continues at hcont
        simp only [Bool.if_true_left, Bool.if_false_right] at hcont ⊢
        rcases hpb : g.player.skip with _ | _
        · simp
        · simp
      · left
        unfold Game.continues
        rw [hps, hos, hob]
        simp
  · rw [if_neg hemp]
    have hgcf : g.cacheFresh = true := by
      unfold Game.cacheFresh
      rcases hc : g.cache with _ | M
      · rfl
      · have hm1 : (g.possible_moves).1 = M := by
          unfold Game.possible_moves
          rw [hc]
        unfold Game.cacheOK at hok
        rw [hc] at hok
        rw [Bool.or_eq_true] at hok
        rcases hok with hok | hok
        · exfalso
          apply hemp
          rw [hm1]
          exact List.isEmpty_iff.mp hok
        · exact hok
    rw [possible_moves_fresh g hgcf] at hemp ⊢
    dsimp only at hemp ⊢
    have hys := hch _ hemp
    rw [if_pos hys]
    have hrt : helper_exit
        (helper_enter ({ g with cache := some g.possible_moves_uncached } : Game)
          g.possible_moves_uncached) g.possible_moves_uncached =
        ({ g with cache := some g.possible_moves_uncached } : Game) :=
      helper_roundtrip _ _ (fun kv hkv => uncached_keys_empty g kv hkv)
    rw [hrt]
    rcases hlo : lookupA g.possible_moves_uncached
        (choose g.possible_moves_uncached) with _ | chain
    · rw [hlo] at hys
      cases hys
    · set gC : Game := { g with cache := some g.possible_moves_uncached } with hgC
      have hconC : ConsistentP gC := consistentP_of_fields gC g rfl rfl rfl hcon
      have hcfC : gC.cacheFresh = true := by
        unfold Game.cacheFresh
        show (match some g.possible_moves_uncached with
          | none => true
          | some m => decide (m = gC.possible_moves_uncached)) = true
        simp only [decide_eq_true_eq]
        rfl
      obtain ⟨g2, hokp, hn1, hn2, hs1, hs2, hc1, hl1, hl2, hcells, hcellm, hocc,
        hemp2, hchopp, hcon2⟩ := play_spec gC (choose g.possible_moves_uncached) chain hconC hcfC hlo
      refine ⟨g2, hokp, hcon2, ?_, ?_⟩
      · unfold Game.cacheOK
        rw [hc1]
      · right
        unfold Game.measureG
        have hge : gC.grid = g.grid := rfl
        rw [hge] at hemp2
        have hw2 := flagWeight_le_two g2
        omega

theorem runGame_terminates (choose : Moves → Coord) (hch : ValidChoose choose) :
    ∀ (n : Nat) (g : Game), ConsistentP g → g.cacheOK = true → g.measureG < n →
      (runGame choose n g).isOk = true ∧
      (resultState (runGame choose n g)).continues = false := by
  intro n
  induction n with
  | zero =>
    intro g _ _ hlt
    exact absurd hlt (Nat.not_lt_zero _)
  | succ n2 ih =>
    intro g hcon hok hlt
    rcases hcont : g.continues with _ | _
    · rw [runGame_stopped choose (n2 + 1) g hcont]
      exact ⟨rfl, hcont⟩
    · obtain ⟨g1, hstep, hcon1, hok1, hterm⟩ := main_step_progress g choose hcon hok hch hcont
      rw [runGame, if_pos hcont, hstep]
      dsimp only
      rcases hterm with hfin | hmeas
      · rw [runGame_stopped choose n2 g1 hfin]
        exact ⟨rfl, hfin⟩
      · exact ih g1 hcon1 hok1 (by omega)

/-- C6: starting from any consistent game state whose cache is empty, stale
empty, or fresh (as holds on every state the loop reaches), and driving the
loop with any chooser that always supplies a key of a non-empty legal-move
map, the loop reaches the finished state (continues = false) within
measure + 1 iterations, where measure = 3 * (number of EMPTY cells) plus a
skip-flag weight of at most 2: every completed move strictly decreases the
EMPTY-cell count and skips cannot repeat without both skip flags becoming
true. -/
theorem C6_termination (g : Game) (choose : Moves → Coord)
    (hcon : g.consistentB = true) (hok : g.cacheOK = true) (hch : ValidChoose choose) :
    (runGame choose (g.measureG + 1) g).isOk = true ∧
    (resultState (runGame choose (g.measureG + 1) g)).continues = false :=
  runGame_terminates choose hch (g.measureG + 1) g ((consistent_iff g).mp hcon) hok
    (Nat.lt_succ_self _)

theorem headKey_valid : ValidChoose headKey := by
  intro m hm
  rcases m with _ | ⟨e, rest⟩
  · exact absurd rfl hm
  · show (lookupA (e :: rest) e.1).isSome = true
    rw [lookupA, if_pos rfl]
    rfl

theorem C6_witness :
    Game.init.consistentB = true ∧ Game.init.cacheOK = true ∧
    (runGame headKey (Game.init.measureG + 1) Game.init).isOk = true ∧
    (resultState (runGame headKey (Game.init.measureG + 1) Game.init)).continues = false := by
  have h := C6_termination Game.init headKey (by decide) (by decide) headKey_valid
  exact ⟨by decide, by decide, h.1, h.2⟩
